import Mathlib

/-!
The package lev0: reading a daily stock CSV file into a columnar table.

Shallow embedding of `src/data.go` (`Data`, `ReadData`).

* Go strings are modelled by Lean `String`; the only character the code inspects
  itself is the ASCII separator `.`.
* The standard-library calls `os.Open`, `csv.Reader.ReadAll`, `time.Parse` and
  `strconv.ParseFloat` are parameters of the model (`Lib`).  A concrete model of the
  two parsers (`goLib`) is given further down and is used to evaluate the program on
  explicit inputs.
* `fmt.Printf` output is a list of printed lines, a Go run-time panic is a value of
  `Panic`, and `log.Fatal` is the outcome `fatal`.
-/

set_option maxRecDepth 100000
set_option exponentiation.threshold 100000

namespace Lev0

/-! ## Data model -/

/-- Run-time panics the row processing of `ReadData` can raise. -/
inductive Panic where
  /-- The panic `slice bounds out of range [lo:len]` -/
  | sliceBounds (lo len : Nat)
  /-- The panic `index out of range [idx] with length len` -/
  | indexOutOfRange (idx len : Nat)
  deriving DecidableEq, Repr

/-- The table `Data` of `data.go`: one stock code and 17 parallel sequences. -/
structure Data (τ φ : Type) where
  StockCode : String := ""
  Dates : List τ := []
  Opens : List φ := []
  Highs : List φ := []
  Lows : List φ := []
  Closes : List φ := []
  PreCloses : List φ := []
  Volumns : List φ := []
  Amounts : List φ := []
  AdjustFlags : List φ := []
  Turns : List φ := []
  TradeStatus : List φ := []
  PctChgs : List φ := []
  PeTTMs : List φ := []
  PbMRQs : List φ := []
  PsTTMs : List φ := []
  PcfNctTTMs : List φ := []
  IsSTs : List φ := []
  deriving DecidableEq, Repr

/-- A line written to standard output by the two `fmt.Printf` calls of `ReadData`. -/
inductive Line (φ : Type) where
  /-- The line of `fmt.Printf("err at (%d, %d)\n", i, j)` -/
  | errAt (i j : Nat)
  /-- The line of `fmt.Printf("parsed value = %f\n", ar[j])` -/
  | parsedValue (v : φ)
  deriving DecidableEq, Repr

/-- The library functions `ReadData` calls: `ε` is the Go type `error`, `τ` is `time.Time`,
`φ` is `float64`, `File` is `*os.File`. -/
structure Lib (ε τ φ File : Type) where
  /-- The Go function `os.Open(path)` -/
  Open : String → Except ε File
  /-- The Go function `csv.NewReader(f).ReadAll()` -/
  ReadAll : File → Except ε (List (List String))
  /-- The Go function `time.Parse("2006-01-02", s)`: the value and the error (`none` is `nil`) -/
  Parse : String → τ × Option ε
  /-- The Go function `strconv.ParseFloat(s, 64)`: the value and the error (`none` is `nil`) -/
  ParseFloat : String → φ × Option ε
  /-- the zero value of `time.Time` -/
  zeroTime : τ
  /-- the zero value of `float64` -/
  zeroFloat : φ

/-- How a call of `ReadData` ends. -/
inductive Outcome (ε τ φ : Type) where
  /-- The call of `log.Fatal` or `log.Fatalln`: the process exits, nothing is returned -/
  | fatal (e : ε)
  /-- a run-time panic: nothing is returned -/
  | panicked (p : Panic)
  /-- The statement `return &tbl` -/
  | returned (tbl : Data τ φ)
  deriving DecidableEq, Repr

/-- What a call of `ReadData` does: the lines it printed, whether the deferred
`f.Close()` was executed, and how the call ended. -/
structure Run (ε τ φ : Type) where
  stdout : List (Line φ)
  closed : Bool
  outcome : Outcome ε τ φ
  deriving DecidableEq, Repr

/-! ## `strings.Split` with a one-character separator -/

/-- Segments of a character list between the occurrences of `sep`. -/
def splitChars (sep : Char) : List Char → List (List Char)
  | [] => [[]]
  | c :: cs =>
    if c = sep then [] :: splitChars sep cs
    else
      match splitChars sep cs with
      | [] => [[c]]
      | seg :: segs => (c :: seg) :: segs

/-- The Go function `strings.Split(s, sep)` for a separator of one character. -/
def Split (s : String) (sep : Char) : List String :=
  (splitChars sep s.data).map String.mk

/-! ## `ReadData` -/

/-- The local variables of `ReadData` that live across the row loop, and the lines
printed so far. -/
structure Vars (ε τ φ : Type) where
  date : τ
  code : String
  ar : Fin 16 → φ
  errs : Fin 16 → Option ε
  tbl : Data τ φ
  stdout : List (Line φ)

/-- The loop `for j, s := range row[2:] { ar[j], errs[j] = strconv.ParseFloat(s, 64) }`,
from offset `j` on: the arrays have 16 slots, a 17th field panics. -/
def parseFields {ε τ φ File : Type} (lib : Lib ε τ φ File) :
    Nat → List String → (Fin 16 → φ) × (Fin 16 → Option ε) →
      Except Panic ((Fin 16 → φ) × (Fin 16 → Option ε))
  | _, [], st => .ok st
  | j, s :: rest, (ar, errs) =>
    if h : j < 16 then
      parseFields lib (j + 1) rest
        (Function.update ar ⟨j, h⟩ (lib.ParseFloat s).1,
         Function.update errs ⟨j, h⟩ (lib.ParseFloat s).2)
    else .error (.indexOutOfRange j 16)

/-- The body of `for j, err := range errs` for one `j`: what is printed. -/
def reportErr {ε φ : Type} (i : Nat) (ar : Fin 16 → φ) (errs : Fin 16 → Option ε)
    (j : Fin 16) : List (Line φ) :=
  match errs j with
  | some _ => if j.val = 8 then [] else [.errAt i j.val, .parsedValue (ar j)]
  | none => []

/-- The loop `for j, err := range errs { ... }` of data row `i`: what is printed. -/
def reportErrs {ε φ : Type} (i : Nat) (ar : Fin 16 → φ) (errs : Fin 16 → Option ε) :
    List (Line φ) :=
  (List.finRange 16).flatMap (reportErr i ar errs)

/-- The 17 `append` statements at the end of the loop body. -/
def appendRow {τ φ : Type} (tbl : Data τ φ) (date : τ) (ar : Fin 16 → φ) : Data τ φ :=
  { tbl with
    Dates := tbl.Dates ++ [date]
    Opens := tbl.Opens ++ [ar 0]
    Highs := tbl.Highs ++ [ar 1]
    Lows := tbl.Lows ++ [ar 2]
    Closes := tbl.Closes ++ [ar 3]
    PreCloses := tbl.PreCloses ++ [ar 4]
    Volumns := tbl.Volumns ++ [ar 5]
    Amounts := tbl.Amounts ++ [ar 6]
    AdjustFlags := tbl.AdjustFlags ++ [ar 7]
    Turns := tbl.Turns ++ [ar 8]
    TradeStatus := tbl.TradeStatus ++ [ar 9]
    PctChgs := tbl.PctChgs ++ [ar 10]
    PeTTMs := tbl.PeTTMs ++ [ar 11]
    PbMRQs := tbl.PbMRQs ++ [ar 12]
    PsTTMs := tbl.PsTTMs ++ [ar 13]
    PcfNctTTMs := tbl.PcfNctTTMs ++ [ar 14]
    IsSTs := tbl.IsSTs ++ [ar 15] }

/-- One iteration of `for i, row := range all[1:]`. -/
def rowStep {ε τ φ File : Type} (lib : Lib ε τ φ File) (i : Nat) (row : List String)
    (v : Vars ε τ φ) : Except Panic (Vars ε τ φ) :=
  match row with
  | [] => .error (.indexOutOfRange 0 0)
  | [_] => .error (.indexOutOfRange 1 1)
  | d :: c :: fields =>
    match parseFields lib 0 fields (v.ar, v.errs) with
    | .error p => .error p
    | .ok (ar, errs) =>
      .ok { date := (lib.Parse d).1
            code := c
            ar := ar
            errs := errs
            tbl := appendRow v.tbl (lib.Parse d).1 ar
            stdout := v.stdout ++ reportErrs i ar errs }

/-- The loop `for i, row := range all[1:]` from data row `i` on.  A panic keeps what
was printed before it. -/
def rowLoop {ε τ φ File : Type} (lib : Lib ε τ φ File) :
    Nat → List (List String) → Vars ε τ φ → List (Line φ) × Except Panic (Vars ε τ φ)
  | _, [], v => (v.stdout, .ok v)
  | i, row :: rest, v =>
    match rowStep lib i row v with
    | .error p => (v.stdout, .error p)
    | .ok v1 => rowLoop lib (i + 1) rest v1

/-- The `var ( ... )` block of `ReadData`: every variable holds its zero value. -/
def initVars {ε τ φ File : Type} (lib : Lib ε τ φ File) : Vars ε τ φ :=
  { date := lib.zeroTime
    code := ""
    ar := fun _ => lib.zeroFloat
    errs := fun _ => none
    tbl := {}
    stdout := [] }

/-- Lines 85 to 120 of `data.go`: `ReadData` from the records `all` that `ReadAll`
returned.  If nothing panics, the deferred `f.Close()` runs at the return; it also runs
while a panic unwinds. -/
def readRecords {ε τ φ File : Type} (lib : Lib ε τ φ File) (all : List (List String)) :
    Run ε τ φ :=
  match all with
  | [] => { stdout := [], closed := true, outcome := .panicked (.sliceBounds 1 0) }
  | _ :: rows =>
    match rowLoop lib 0 rows (initVars lib) with
    | (out, .error p) => { stdout := out, closed := true, outcome := .panicked p }
    | (out, .ok v) =>
      match (Split v.code '.')[1]? with
      | none =>
        { stdout := out, closed := true
          outcome := .panicked (.indexOutOfRange 1 (Split v.code '.').length) }
      | some stock =>
        { stdout := out, closed := true
          outcome := .returned { v.tbl with StockCode := stock } }

/-- The function `ReadData(path)`.  `log.Fatal` exits the process without running deferred calls. -/
def ReadData {ε τ φ File : Type} (lib : Lib ε τ φ File) (path : String) : Run ε τ φ :=
  match lib.Open path with
  | .error e => { stdout := [], closed := false, outcome := .fatal e }
  | .ok f =>
    match lib.ReadAll f with
    | .error e => { stdout := [], closed := false, outcome := .fatal e }
    | .ok all => readRecords lib all

/-! ## A model of the Go library: errors, `time.Time`, `float64` -/

/-- The Go errors that occur: `strconv.ErrSyntax` and `strconv.ErrRange` (inside a
`*strconv.NumError`), a `*time.ParseError`, and the errors of `os.Open` and of the CSV
reader. -/
inductive GoError where
  | ErrSyntax
  | ErrRange
  | ParseError
  | PathError (msg : String)
  | CsvError (msg : String)
  deriving DecidableEq, Repr

/-- A `time.Time` that `time.Parse("2006-01-02", s)` can return: midnight UTC of a
calendar day. -/
structure Time where
  year : Nat
  month : Nat
  day : Nat
  deriving DecidableEq, Repr

/-- The zero value `time.Time{}`: January 1, year 1, 00:00:00 UTC. -/
def Time.zero : Time := ⟨1, 1, 1⟩

/-- A `float64`, given by its IEEE 754 binary64 bit pattern (`math.Float64bits`). -/
structure float64 where
  bits : Nat
  deriving DecidableEq, Repr

/-- The `float64` zero value `+0`. -/
def float64.zero : float64 := ⟨0⟩

/-- The value of `math.Inf(sign)`. -/
def float64.inf (neg : Bool) : float64 :=
  ⟨(if neg then 2 ^ 63 else 0) + 2047 * 2 ^ 52⟩

/-- The value of `math.NaN()`: bits `0x7FF8000000000001`. -/
def float64.nan : float64 := ⟨2047 * 2 ^ 52 + 2 ^ 51 + 1⟩

/-- The `float64` with the given sign, biased exponent and fraction. -/
def float64.pack (neg : Bool) (biased frac : Nat) : float64 :=
  ⟨(if neg then 2 ^ 63 else 0) + biased * 2 ^ 52 + frac⟩

/-! ## `time.Parse` with the layout `2006-01-02` -/

/-- ASCII decimal digit. -/
def isDigit (c : Char) : Bool := decide ('0' ≤ c) && decide (c ≤ '9')

/-- The value of an ASCII decimal digit. -/
def digitVal (c : Char) : Nat := c.toNat - '0'.toNat

/-- Leap year of the proleptic Gregorian calendar (`time.isLeap`). -/
def isLeap (year : Nat) : Bool :=
  year % 4 == 0 && (year % 100 != 0 || year % 400 == 0)

/-- Number of days of a month (`time.daysIn`). -/
def daysIn (month year : Nat) : Nat :=
  if month = 2 then (if isLeap year then 29 else 28)
  else if month = 4 ∨ month = 6 ∨ month = 9 ∨ month = 11 then 30
  else 31

/-- The Go function `time.Parse("2006-01-02", s)`: four year digits, `-`, two month digits, `-`, two
day digits and nothing else; the month must be 1 to 12 and the day must exist in that
month.  Every failure returns `time.Time{}` and a `*time.ParseError`. -/
def timeParse (s : String) : Time × Option GoError :=
  match s.data with
  | [y1, y2, y3, y4, a, m1, m2, b, d1, d2] =>
    if isDigit y1 && isDigit y2 && isDigit y3 && isDigit y4 && a == '-' &&
        isDigit m1 && isDigit m2 && b == '-' && isDigit d1 && isDigit d2 then
      let year := digitVal y1 * 1000 + digitVal y2 * 100 + digitVal y3 * 10 + digitVal y4
      let month := digitVal m1 * 10 + digitVal m2
      let day := digitVal d1 * 10 + digitVal d2
      if month = 0 ∨ 12 < month then (Time.zero, some .ParseError)
      else if day < 1 ∨ daysIn month year < day then (Time.zero, some .ParseError)
      else (⟨year, month, day⟩, none)
    else (Time.zero, some .ParseError)
  | _ => (Time.zero, some .ParseError)

/-! ## `strconv.ParseFloat(s, 64)` -/

/-- ASCII lower case of a letter, as `strconv.lower` is used on letters. -/
def lower (c : Char) : Char :=
  if 'A' ≤ c ∧ c ≤ 'Z' then Char.ofNat (c.toNat + 32) else c

/-- Hexadecimal digit `a` to `f` in either case. -/
def isHexLetter (c : Char) : Bool := decide ('a' ≤ lower c) && decide (lower c ≤ 'f')

/-- The Go function `strconv.special`: the names of the infinities and of NaN, matched without regard
to case, `inf` and `infinity` with an optional sign.  `none` when `s` is no such name;
a name followed by more text is no float either. -/
def special (s : List Char) : Option float64 :=
  let isInf := fun (r : List Char) =>
    r.map lower = "inf".data || r.map lower = "infinity".data
  match s with
  | [] => none
  | c :: r =>
    if c = '+' then (if isInf r then some (float64.inf false) else none)
    else if c = '-' then (if isInf r then some (float64.inf true) else none)
    else if isInf s then some (float64.inf false)
    else if s.map lower = "nan".data then some float64.nan
    else none

/-- The state of the digit loop of `strconv.readFloat`. -/
structure Digits where
  mantissa : Nat := 0
  nd : Nat := 0
  dp : Int := 0
  sawdot : Bool := false
  sawdigits : Bool := false
  underscores : Bool := false
  deriving DecidableEq, Repr

/-- The digit loop of `strconv.readFloat` for base 10 or 16: the state at the first
character that is not part of the mantissa, and the rest of the input from there.  The
mantissa is kept in full, where Go keeps 19 digits and the fact that more followed. -/
def readDigits (hex : Bool) : List Char → Digits → Digits × List Char
  | [], st => (st, [])
  | c :: cs, st =>
    if c = '_' then readDigits hex cs { st with underscores := true }
    else if c = '.' then
      if st.sawdot then (st, c :: cs)
      else readDigits hex cs { st with sawdot := true, dp := st.nd }
    else if isDigit c then
      if c = '0' ∧ st.nd = 0 then
        readDigits hex cs { st with sawdigits := true, dp := st.dp - 1 }
      else
        readDigits hex cs
          { st with sawdigits := true, nd := st.nd + 1
                    mantissa := st.mantissa * (if hex then 16 else 10) + digitVal c }
    else if hex && isHexLetter c then
      readDigits hex cs
        { st with sawdigits := true, nd := st.nd + 1
                  mantissa := st.mantissa * 16 + ((lower c).toNat - 'a'.toNat + 10) }
    else (st, c :: cs)

/-- The exponent digits of `strconv.readFloat`: digits and underscores, the value
no longer grows once it has reached 10000. -/
def readExp : List Char → Nat → Bool → Nat × Bool × List Char
  | [], e, u => (e, u, [])
  | c :: cs, e, u =>
    if c = '_' then readExp cs e true
    else if isDigit c then readExp cs (if e < 10000 then e * 10 + digitVal c else e) u
    else (e, u, c :: cs)

/-- The loop of `strconv.underscoreOK` over the number proper: `saw` is `'0'` after a
digit, `'_'` after an underscore, `'!'` after another character. -/
def underscoreLoop (hex : Bool) : List Char → Char → Bool
  | [], saw => saw != '_'
  | c :: cs, saw =>
    if isDigit c || (hex && isHexLetter c) then underscoreLoop hex cs '0'
    else if c = '_' then (if saw != '0' then false else underscoreLoop hex cs '_')
    else if saw = '_' then false
    else underscoreLoop hex cs '!'

/-- The Go function `strconv.underscoreOK`: an underscore may only stand between digits or between a
base prefix and a digit. -/
def underscoreOK (s : List Char) : Bool :=
  let s := match s with
    | c :: r => if c = '-' ∨ c = '+' then r else s
    | [] => s
  match s with
  | c0 :: c1 :: r =>
    if c0 = '0' ∧ (lower c1 = 'b' ∨ lower c1 = 'o' ∨ lower c1 = 'x') then
      underscoreLoop (lower c1 == 'x') r '0'
    else underscoreLoop false s '^'
  | _ => underscoreLoop false s '^'

/-- What `strconv.readFloat` reads: sign, mantissa, exponent of the base (10, or 2 for
a hexadecimal float). -/
structure Number where
  neg : Bool
  hex : Bool
  mantissa : Nat
  exp : Int
  deriving DecidableEq, Repr

/-- The Go function `strconv.readFloat` on a whole string: `none` when the string is not a
floating-point literal from its first to its last character. -/
def readFloat (s : List Char) : Option Number :=
  -- optional sign
  let (neg, s1) := match s with
    | c :: r => if c = '+' then (false, r) else if c = '-' then (true, r) else (false, s)
    | [] => (false, s)
  if s = [] then none else
  -- base prefix: `0x` followed by at least one character
  let (hex, s2) := match s1 with
    | c0 :: c1 :: c2 :: r => if c0 = '0' ∧ lower c1 = 'x' then (true, c2 :: r) else (false, s1)
    | _ => (false, s1)
  let (st, s3) := readDigits hex s2 {}
  if !st.sawdigits then none else
  let dp0 : Int := if st.sawdot then st.dp else st.nd
  let dp1 : Int := if hex then dp0 * 4 else dp0
  let nd1 : Int := if hex then st.nd * 4 else st.nd
  -- optional exponent, mandatory for a hexadecimal float
  let expPart : Option (Int × Bool × List Char) :=
    match s3 with
    | c :: r =>
      if lower c = (if hex then 'p' else 'e') then
        let (esign, r1) : Int × List Char := match r with
          | c1 :: r2 => if c1 = '+' then (1, r2) else if c1 = '-' then (-1, r2) else (1, r)
          | [] => (1, r)
        match r1 with
        | c2 :: _ =>
          if isDigit c2 then
            let (e, u, rest) := readExp r1 0 false
            some (dp1 + e * esign, u, rest)
          else none
        | [] => none
      else if hex then none else some (dp1, false, s3)
    | [] => if hex then none else some (dp1, false, s3)
  match expPart with
  | none => none
  | some (dp2, u, rest) =>
    if rest ≠ [] then none
    else if (st.underscores || u) && !underscoreOK s then none
    else some { neg := neg, hex := hex, mantissa := st.mantissa
                exp := if st.mantissa = 0 then 0 else dp2 - nd1 }

/-- Number of binary digits of `n`; the first argument bounds the recursion. -/
def bitLen : Nat → Nat → Nat
  | 0, _ => 0
  | fuel + 1, n => if n = 0 then 0 else bitLen fuel (n / 2) + 1

/-- The pair `(n, d)` with `n / d = (num / den) * 2 ^ s`. -/
def scale2 (num den : Nat) (s : Int) : Nat × Nat :=
  if 0 ≤ s then (num * 2 ^ s.toNat, den) else (num, den * 2 ^ (-s).toNat)

/-- The integer nearest to `n / d`, ties to even. -/
def roundHalfEven (n d : Nat) : Nat :=
  if d < 2 * (n % d) ∨ (2 * (n % d) = d ∧ (n / d) % 2 = 1) then n / d + 1 else n / d

/-- The `float64` nearest to the positive rational `num / den` (IEEE 754 round to
nearest, ties to even) with the given sign, and whether it overflows: a value that
rounds beyond the largest finite `float64` gives the infinity. -/
def roundFloat64 (neg : Bool) (num den : Nat) : float64 × Bool :=
  -- `num / den` lies in `[2 ^ (e0 - 1), 2 ^ (e0 + 1))`
  let e0 : Int := (bitLen num num : Int) - (bitLen den den : Int)
  let (n0, d0) := scale2 num den (-e0)
  let e1 : Int := if d0 ≤ n0 then e0 else e0 - 1
  -- binary exponent of the result, not below that of the subnormal numbers
  let e : Int := if e1 < -1022 then -1022 else e1
  let (n, d) := scale2 num den (52 - e)
  let m := roundHalfEven n d
  let (m, e) := if m = 2 ^ 53 then (2 ^ 52, e + 1) else (m, e)
  if 1023 < e then (float64.inf neg, true)
  else if m < 2 ^ 52 then (float64.pack neg 0 m, false)
  else (float64.pack neg (e + 1023).toNat (m - 2 ^ 52), false)

/-- The `float64` of a number read by `readFloat`, and whether it overflows. -/
def Number.toFloat64 (x : Number) : float64 × Bool :=
  if x.mantissa = 0 then (float64.pack x.neg 0 0, false)
  else
    let base : Nat := if x.hex then 2 else 10
    if 0 ≤ x.exp then roundFloat64 x.neg (x.mantissa * base ^ x.exp.toNat) 1
    else roundFloat64 x.neg x.mantissa (base ^ (-x.exp).toNat)

/-- The Go function `strconv.ParseFloat(s, 64)`.  A string that is no floating-point literal gives
`0` and `ErrSyntax`; a literal beyond the `float64` range gives an infinity and
`ErrRange`; every other literal gives the nearest `float64` and no error. -/
def ParseFloat (s : String) : float64 × Option GoError :=
  match special s.data with
  | some v => (v, none)
  | none =>
    match readFloat s.data with
    | none => (float64.zero, some .ErrSyntax)
    | some x =>
      if (x.toFloat64).2 then (float64.inf x.neg, some .ErrRange)
      else ((x.toFloat64).1, none)

/-- The library with the parsers above.  The file system is a parameter: `fs path` is
what `os.Open(path)` gives, and an open file is what `ReadAll` gives on it. -/
def goLib (fs : String → Except GoError (Except GoError (List (List String)))) :
    Lib GoError Time float64 (Except GoError (List (List String))) :=
  { Open := fs
    ReadAll := fun f => f
    Parse := timeParse
    ParseFloat := ParseFloat
    zeroTime := Time.zero
    zeroFloat := float64.zero }

/-- A file system with one readable CSV file `data.csv` holding the given records. -/
def oneFile (all : List (List String)) :
    String → Except GoError (Except GoError (List (List String))) :=
  fun path => if path = "data.csv" then .ok (.ok all) else .error (.PathError path)

/-! ## Example inputs -/

/-- The header line of the data files (`data.go`, lines 18 to 20). -/
def header : List String :=
  ["date", "code", "open", "high", "low", "close", "preclose", "volume", "amount",
   "adjustflag", "turn", "tradestatus", "pctChg", "peTTM", "pbMRQ", "psTTM", "pcfNcfTTM",
   "isST"]

/-- The example data row of the specification. -/
def exampleRow : List String :=
  ["2020-01-02", "sh.600000", "10.0", "10.5", "9.8", "10.2", "10.0", "1000000",
   "10200000", "1", "0.5", "1", "2.0", "15.3", "1.2", "2.1", "8.4", "0"]

/-- A data row that carries the code of another stock. -/
def otherStockRow : List String :=
  ["2020-01-01", "sz.000001", "10.0", "10.0", "10.0", "10.0", "10.0", "0",
   "0", "1", "", "0", "0", "15.3", "1.2", "2.1", "8.4", "0"]

/-- The day after `exampleRow` without trading: the prices are its close, volume and
amount are zero, the turnover is blank. -/
def suspendedRow : List String :=
  ["2020-01-03", "sh.600000", "10.2", "10.2", "10.2", "10.2", "10.2", "0",
   "0", "1", "", "0", "0", "15.3", "1.2", "2.1", "8.4", "0"]

/-- The example row with an open price beyond the `float64` range. -/
def overflowRow : List String :=
  ["2020-01-02", "sh.600000", "1e400", "10.5", "9.8", "10.2", "10.0", "1000000",
   "10200000", "1", "0.5", "1", "2.0", "15.3", "1.2", "2.1", "8.4", "0"]

/-- The example row with a date that is not in the pattern `YYYY-MM-DD`. -/
def badDateRow : List String :=
  ["2020/01/02", "sh.600000", "10.0", "10.5", "9.8", "10.2", "10.0", "1000000",
   "10200000", "1", "0.5", "1", "2.0", "15.3", "1.2", "2.1", "8.4", "0"]

/-- A row with trade status 0 whose prices are not the close of `exampleRow` and whose
volume and amount are not zero. -/
def haltedRow : List String :=
  ["2020-01-03", "sh.600000", "11.0", "11.0", "11.0", "11.0", "10.2", "5",
   "55", "1", "", "0", "0", "15.3", "1.2", "2.1", "8.4", "0"]

/-- A row with a high price that is no number, a blank turnover and a blank P/E. -/
def brokenRow : List String :=
  ["2020-01-06", "sh.600000", "1e400", "abc", "9.8", "10.2", "10.0", "1000000",
   "10200000", "1", "", "1", "2.0", "", "1.2", "2.1", "8.4", "0"]

/-- The table `ReadData` returns on the header, `otherStockRow` and `exampleRow`. -/
def twoStockTable : Data Time float64 :=
  { StockCode := "600000"
    Dates := [⟨2020, 1, 1⟩, ⟨2020, 1, 2⟩]
    Opens := [⟨4621819117588971520⟩, ⟨4621819117588971520⟩]
    Highs := [⟨4621819117588971520⟩, ⟨4622100592565682176⟩]
    Lows := [⟨4621819117588971520⟩, ⟨4621706527598287258⟩]
    Closes := [⟨4621819117588971520⟩, ⟨4621931707579655782⟩]
    PreCloses := [⟨4621819117588971520⟩, ⟨4621819117588971520⟩]
    Volumns := [⟨0⟩, ⟨4696837146684686336⟩]
    Amounts := [⟨0⟩, ⟨4711737693904568320⟩]
    AdjustFlags := [⟨4607182418800017408⟩, ⟨4607182418800017408⟩]
    Turns := [⟨0⟩, ⟨4602678819172646912⟩]
    TradeStatus := [⟨0⟩, ⟨4607182418800017408⟩]
    PctChgs := [⟨0⟩, ⟨4611686018427387904⟩]
    PeTTMs := [⟨4624802752342104474⟩, ⟨4624802752342104474⟩]
    PbMRQs := [⟨4608083138725491507⟩, ⟨4608083138725491507⟩]
    PsTTMs := [⟨4611911198408756429⟩, ⟨4611911198408756429⟩]
    PcfNctTTMs := [⟨4620918397663497421⟩, ⟨4620918397663497421⟩]
    IsSTs := [⟨0⟩, ⟨0⟩] }

/-- A file system whose one file opens and then fails in the CSV reader. -/
def brokenCsv : String → Except GoError (Except GoError (List (List String))) :=
  fun _ => .ok (.error (.CsvError "wrong number of fields"))

/-! ## Statement devices -/

/-- The 16 numeric sequences of a table in column order: offset `j` is the sequence
that receives `ar[j]`. -/
def Data.column {τ φ : Type} (t : Data τ φ) (j : Fin 16) : List φ :=
  match j with
  | ⟨0, _⟩ => t.Opens
  | ⟨1, _⟩ => t.Highs
  | ⟨2, _⟩ => t.Lows
  | ⟨3, _⟩ => t.Closes
  | ⟨4, _⟩ => t.PreCloses
  | ⟨5, _⟩ => t.Volumns
  | ⟨6, _⟩ => t.Amounts
  | ⟨7, _⟩ => t.AdjustFlags
  | ⟨8, _⟩ => t.Turns
  | ⟨9, _⟩ => t.TradeStatus
  | ⟨10, _⟩ => t.PctChgs
  | ⟨11, _⟩ => t.PeTTMs
  | ⟨12, _⟩ => t.PbMRQs
  | ⟨13, _⟩ => t.PsTTMs
  | ⟨14, _⟩ => t.PcfNctTTMs
  | ⟨_ + 15, _⟩ => t.IsSTs

/-- The field that the parse loop reads into slot `j` when it starts at offset `j0`. -/
def fieldAt (fields : List String) (j0 j : Nat) : Option String :=
  if j0 ≤ j then fields[j - j0]? else none

/-- What slot `j` of `ar` holds after the parse loop ran over data row `row`: the float
parse of field `j + 2`, or the old content `ar0 j` when the row has no such field. -/
def slotValue {ε τ φ File : Type} (lib : Lib ε τ φ File) (ar0 : Fin 16 → φ)
    (row : List String) (j : Fin 16) : φ :=
  match row[j.val + 2]? with
  | some s => (lib.ParseFloat s).1
  | none => ar0 j

/-- What slot `j` of `errs` holds after the parse loop ran over data row `row`. -/
def slotErr {ε τ φ File : Type} (lib : Lib ε τ φ File) (errs0 : Fin 16 → Option ε)
    (row : List String) (j : Fin 16) : Option ε :=
  match row[j.val + 2]? with
  | some s => (lib.ParseFloat s).2
  | none => errs0 j

/-- The code variable after the row loop: field 1 of the last row processed. -/
def lastCode (code0 : String) (rows : List (List String)) : String :=
  rows.foldl (fun _ r => r.getD 1 "") code0

/-- The error of the float parse of numeric column `j` of a data row (field `j + 2`):
`none` when the parse succeeds. -/
def numErr {ε τ φ File : Type} (lib : Lib ε τ φ File) (row : List String) (j : Nat) :
    Option ε :=
  match row[j + 2]? with
  | some s => (lib.ParseFloat s).2
  | none => none

/-- The value of the float parse of numeric column `j` of a data row (field `j + 2`). -/
def numVal {ε τ φ File : Type} (lib : Lib ε τ φ File) (row : List String) (j : Nat) : φ :=
  match row[j + 2]? with
  | some s => (lib.ParseFloat s).1
  | none => lib.zeroFloat

/-- The diagnostics as the specification words them: in row order and then column
order, one diagnostic (its two printed lines) for every pair `(i, j)` such that the
float parse of field `j + 2` of data row `i` fails and `j` is not 8. -/
def expectedDiags {ε τ φ File : Type} (lib : Lib ε τ φ File) (rows : List (List String)) :
    List (Line φ) :=
  rows.enum.flatMap fun ir =>
    ((List.range 16).filter fun j => (numErr lib ir.2 j).isSome && decide (j ≠ 8)).flatMap
      fun j => [.errAt ir.1 j, .parsedValue (numVal lib ir.2 j)]

/-- The diagnostics of data row `i` as a function of that row and its index alone: in
column order, the two printed lines for every numeric column other than column 8 whose
field is present and fails to parse. -/
def rowDiags {ε τ φ File : Type} (lib : Lib ε τ φ File) (i : Nat) (row : List String) :
    List (Line φ) :=
  ((List.range 16).filter fun j => (numErr lib row j).isSome && decide (j ≠ 8)).flatMap
    fun j => [.errAt i j, .parsedValue (numVal lib row j)]

/-- A data row whose code has two separators. -/
def twoDotRow : List String :=
  ["2020-01-02", "sh.600000.x", "10.0", "10.5", "9.8", "10.2", "10.0", "1000000",
   "10200000", "1", "0.5", "1", "2.0", "15.3", "1.2", "2.1", "8.4", "0"]

/-- A data row whose code ends with its separator. -/
def endDotRow : List String :=
  ["2020-01-02", "sh.", "10.0", "10.5", "9.8", "10.2", "10.0", "1000000",
   "10200000", "1", "0.5", "1", "2.0", "15.3", "1.2", "2.1", "8.4", "0"]

/-- A data row whose code has no separator. -/
def noDotRow : List String :=
  ["2020-01-02", "600000", "10.0", "10.5", "9.8", "10.2", "10.0", "1000000",
   "10200000", "1", "0.5", "1", "2.0", "15.3", "1.2", "2.1", "8.4", "0"]

/-- A data row of 19 fields. -/
def longRow : List String := exampleRow ++ ["0"]

/-- A header of four columns. -/
def shortHeader : List String := ["date", "code", "open", "high"]

/-- A data row of four fields whose open price is no number. -/
def shortRowA : List String := ["2020-01-02", "sh.600000", "abc", "10.5"]

/-- A data row of four fields. -/
def shortRowB : List String := ["2020-01-03", "sh.600000", "10.0", "11"]

/-- A data row of four fields whose prices are blank. -/
def shortRowC : List String := ["2020-01-06", "sh.600000", "", ""]

/-- A file system with two readable CSV files, `a.csv` and `b.csv`. -/
def twoFiles (a b : List (List String)) :
    String → Except GoError (Except GoError (List (List String))) :=
  fun path =>
    if path = "a.csv" then .ok (.ok a)
    else if path = "b.csv" then .ok (.ok b)
    else .error (.PathError path)

/-! ## The parse loop -/

theorem fieldAt_cons_self (s : String) (rest : List String) (j0 : Nat) :
    fieldAt (s :: rest) j0 j0 = some s := by
  simp [fieldAt]

theorem fieldAt_succ_of_le (rest : List String) (j0 j : Nat) (h : j ≤ j0) :
    fieldAt rest (j0 + 1) j = none := by
  simp [fieldAt]; omega

theorem fieldAt_cons_of_lt (s : String) (rest : List String) (j0 j : Nat) (h : j0 < j) :
    fieldAt (s :: rest) j0 j = fieldAt rest (j0 + 1) j := by
  have h1 : j - j0 = (j - (j0 + 1)) + 1 := by omega
  have h2 : j0 ≤ j := by omega
  have h3 : j0 + 1 ≤ j := h
  simp [fieldAt, h1, h2, h3]

theorem fieldAt_cons_of_gt (s : String) (rest : List String) (j0 j : Nat) (h : j < j0) :
    fieldAt (s :: rest) j0 j = none := by
  simp [fieldAt]; omega

/-- The parse loop does not panic when the fields fit into the 16 slots; slot `j` then
holds the parse of the field read into it, and keeps its old content when no field is
read into it. -/
theorem parseFields_ok {ε τ φ File : Type} (lib : Lib ε τ φ File) (fields : List String) :
    ∀ (j0 : Nat) (ar : Fin 16 → φ) (errs : Fin 16 → Option ε),
      j0 + fields.length ≤ 16 →
      ∃ ar1 errs1, parseFields lib j0 fields (ar, errs) = .ok (ar1, errs1) ∧
        ∀ j : Fin 16,
          ar1 j = (match fieldAt fields j0 j.val with
                   | some s => (lib.ParseFloat s).1
                   | none => ar j) ∧
          errs1 j = (match fieldAt fields j0 j.val with
                     | some s => (lib.ParseFloat s).2
                     | none => errs j) := by
  induction fields with
  | nil =>
    intro j0 ar errs _
    exact ⟨ar, errs, rfl, fun j => by simp [fieldAt]⟩
  | cons s rest ih =>
    intro j0 ar errs hlen
    have hj0 : j0 < 16 := by simp at hlen; omega
    have hrest : (j0 + 1) + rest.length ≤ 16 := by simp at hlen; omega
    obtain ⟨ar1, errs1, hrun, hval⟩ :=
      ih (j0 + 1) (Function.update ar ⟨j0, hj0⟩ (lib.ParseFloat s).1)
        (Function.update errs ⟨j0, hj0⟩ (lib.ParseFloat s).2) hrest
    refine ⟨ar1, errs1, ?_, ?_⟩
    · simp only [parseFields, hj0, dite_true]
      exact hrun
    · intro j
      obtain ⟨ha, he⟩ := hval j
      rcases Nat.lt_trichotomy j.val j0 with hlt | heq | hgt
      · have hne : j ≠ ⟨j0, hj0⟩ := fun h => by rw [h] at hlt; exact Nat.lt_irrefl _ hlt
        rw [fieldAt_succ_of_le rest j0 j.val (Nat.le_of_lt hlt)] at ha he
        rw [fieldAt_cons_of_gt s rest j0 j.val hlt]
        simp only [Function.update_noteq hne] at ha he
        exact ⟨ha, he⟩
      · have hj : j = ⟨j0, hj0⟩ := Fin.ext heq
        rw [fieldAt_succ_of_le rest j0 j.val (Nat.le_of_eq heq)] at ha he
        rw [heq, fieldAt_cons_self]
        subst hj
        simp only [Function.update_same] at ha he
        exact ⟨ha, he⟩
      · have hne : j ≠ ⟨j0, hj0⟩ := fun h => by rw [h] at hgt; exact Nat.lt_irrefl _ hgt
        rw [fieldAt_cons_of_lt s rest j0 j.val hgt]
        cases hf : fieldAt rest (j0 + 1) j.val with
        | none =>
          rw [hf] at ha he
          simp only [Function.update_noteq hne] at ha he
          exact ⟨ha, he⟩
        | some t =>
          rw [hf] at ha he
          exact ⟨ha, he⟩

/-- A 17th numeric field makes the parse loop panic. -/
theorem parseFields_panic {ε τ φ File : Type} (lib : Lib ε τ φ File) (fields : List String) :
    ∀ (j0 : Nat) (ar : Fin 16 → φ) (errs : Fin 16 → Option ε),
      j0 ≤ 16 → 16 < j0 + fields.length →
      parseFields lib j0 fields (ar, errs) = .error (.indexOutOfRange 16 16) := by
  induction fields with
  | nil => intro j0 ar errs h1 h2; simp at h2; omega
  | cons s rest ih =>
    intro j0 ar errs h1 h2
    by_cases hj0 : j0 < 16
    · simp only [parseFields, hj0, dite_true]
      exact ih (j0 + 1) _ _ hj0 (by simp at h2; omega)
    · have : j0 = 16 := by omega
      subst this
      simp [parseFields]

/-! ## One row -/

theorem column_appendRow {τ φ : Type} (t : Data τ φ) (d : τ) (ar : Fin 16 → φ)
    (j : Fin 16) : (appendRow t d ar).column j = t.column j ++ [ar j] := by
  fin_cases j <;> rfl

/-- A data row of 2 to 18 fields is processed without a panic, and the variables after
it are given in closed form. -/
theorem rowStep_ok {ε τ φ File : Type} (lib : Lib ε τ φ File) (i : Nat) (d c : String)
    (fields : List String) (v : Vars ε τ φ) (h : fields.length ≤ 16) :
    rowStep lib i (d :: c :: fields) v =
      .ok { date := (lib.Parse d).1
            code := c
            ar := slotValue lib v.ar (d :: c :: fields)
            errs := slotErr lib v.errs (d :: c :: fields)
            tbl := appendRow v.tbl (lib.Parse d).1 (slotValue lib v.ar (d :: c :: fields))
            stdout := v.stdout ++ reportErrs i (slotValue lib v.ar (d :: c :: fields))
              (slotErr lib v.errs (d :: c :: fields)) } := by
  obtain ⟨ar1, errs1, hrun, hval⟩ := parseFields_ok lib fields 0 v.ar v.errs (by omega)
  have har : ar1 = slotValue lib v.ar (d :: c :: fields) := by
    funext j
    rw [(hval j).1]
    simp [slotValue, fieldAt]
  have herr : errs1 = slotErr lib v.errs (d :: c :: fields) := by
    funext j
    rw [(hval j).2]
    simp [slotErr, fieldAt]
  simp only [rowStep, hrun, har, herr]

/-- A row that is processed has at least two fields and leaves its field 1 in `code`. -/
theorem rowStep_code {ε τ φ File : Type} (lib : Lib ε τ φ File) (i : Nat)
    (row : List String) (v v1 : Vars ε τ φ) (h : rowStep lib i row v = .ok v1) :
    v1.code = row.getD 1 "" ∧ 2 ≤ row.length := by
  match row, h with
  | [], h => simp [rowStep] at h
  | [_], h => simp [rowStep] at h
  | d :: c :: fields, h =>
    simp only [rowStep] at h
    split at h
    · simp at h
    · cases h
      simp

theorem slotValue_idem {ε τ φ File : Type} (lib : Lib ε τ φ File) (ar0 : Fin 16 → φ)
    (row r : List String) (h : row.length = r.length) :
    slotValue lib (slotValue lib ar0 row) r = slotValue lib ar0 r := by
  funext j
  simp only [slotValue]
  cases hr : r[j.val + 2]? with
  | some s => rfl
  | none =>
    have : row[j.val + 2]? = none := by
      rw [List.getElem?_eq_none_iff] at hr ⊢
      omega
    simp [this]

theorem slotErr_idem {ε τ φ File : Type} (lib : Lib ε τ φ File) (errs0 : Fin 16 → Option ε)
    (row r : List String) (h : row.length = r.length) :
    slotErr lib (slotErr lib errs0 row) r = slotErr lib errs0 r := by
  funext j
  simp only [slotErr]
  cases hr : r[j.val + 2]? with
  | some s => rfl
  | none =>
    have : row[j.val + 2]? = none := by
      rw [List.getElem?_eq_none_iff] at hr ⊢
      omega
    simp [this]

/-! ## The row loop -/

/-- The row loop leaves in `code` field 1 of the last row, whenever it does not panic. -/
theorem rowLoop_code {ε τ φ File : Type} (lib : Lib ε τ φ File) (rows : List (List String)) :
    ∀ (i0 : Nat) (v v1 : Vars ε τ φ) (out : List (Line φ)),
      rowLoop lib i0 rows v = (out, .ok v1) → v1.code = lastCode v.code rows := by
  induction rows with
  | nil =>
    intro i0 v v1 out h
    simp only [rowLoop, Prod.mk.injEq, Except.ok.injEq] at h
    rw [← h.2]; rfl
  | cons row rest ih =>
    intro i0 v v1 out h
    simp only [rowLoop] at h
    cases hs : rowStep lib i0 row v with
    | error p => rw [hs] at h; simp at h
    | ok v2 =>
      rw [hs] at h
      have := ih (i0 + 1) v2 v1 out h
      rw [this, (rowStep_code lib i0 row v v2 hs).1]
      rfl

/-- The row loop over rows that all have `k + 2` fields, `k ≤ 16`: no panic, and the
table, the code and the printed lines in closed form. -/
theorem rowLoop_uniform {ε τ φ File : Type} (lib : Lib ε τ φ File) (k : Nat) (hk : k ≤ 16)
    (rows : List (List String)) (hlen : ∀ r ∈ rows, r.length = k + 2) :
    ∀ (i0 : Nat) (v : Vars ε τ φ),
      ∃ v1, rowLoop lib i0 rows v = (v1.stdout, .ok v1) ∧
        v1.tbl.StockCode = v.tbl.StockCode ∧
        v1.tbl.Dates = v.tbl.Dates ++ rows.map (fun r => (lib.Parse (r.getD 0 "")).1) ∧
        (∀ j, v1.tbl.column j = v.tbl.column j ++ rows.map (fun r => slotValue lib v.ar r j)) ∧
        v1.code = lastCode v.code rows ∧
        v1.stdout = v.stdout ++ (rows.enumFrom i0).flatMap (fun ir =>
          reportErrs ir.1 (slotValue lib v.ar ir.2) (slotErr lib v.errs ir.2)) := by
  induction rows with
  | nil =>
    intro i0 v
    exact ⟨v, rfl, rfl, by simp, fun j => by simp, rfl, by simp⟩
  | cons row rest ih =>
    intro i0 v
    have hrow : row.length = k + 2 := hlen row (List.mem_cons_self _ _)
    have hrest : ∀ r ∈ rest, r.length = k + 2 := fun r hr => hlen r (List.mem_cons_of_mem _ hr)
    match row, hrow with
    | d :: c :: fields, hrow =>
      have hf : fields.length ≤ 16 := by simp at hrow; omega
      obtain ⟨v1, hrun, hsc, hdates, hcols, hcode, hout⟩ := ih hrest (i0 + 1)
        { date := (lib.Parse d).1
          code := c
          ar := slotValue lib v.ar (d :: c :: fields)
          errs := slotErr lib v.errs (d :: c :: fields)
          tbl := appendRow v.tbl (lib.Parse d).1 (slotValue lib v.ar (d :: c :: fields))
          stdout := v.stdout ++ reportErrs i0 (slotValue lib v.ar (d :: c :: fields))
            (slotErr lib v.errs (d :: c :: fields)) }
      have hval : ∀ r ∈ rest, slotValue lib (slotValue lib v.ar (d :: c :: fields)) r
          = slotValue lib v.ar r := fun r hr =>
        slotValue_idem lib v.ar _ r (by rw [hrow, hrest r hr])
      have herr : ∀ r ∈ rest, slotErr lib (slotErr lib v.errs (d :: c :: fields)) r
          = slotErr lib v.errs r := fun r hr =>
        slotErr_idem lib v.errs _ r (by rw [hrow, hrest r hr])
      refine ⟨v1, ?_, ?_, ?_, ?_, ?_, ?_⟩
      · simp only [rowLoop, rowStep_ok lib i0 d c fields v hf]
        exact hrun
      · rw [hsc]; rfl
      · rw [hdates]; simp [appendRow]
      · intro j
        rw [hcols j, column_appendRow]
        simp only [List.map_cons, List.append_assoc, List.singleton_append]
        congr 2
        apply List.map_congr_left
        intro r hr
        rw [hval r hr]
      · rw [hcode]; rfl
      · rw [hout]
        simp only [List.enumFrom_cons, List.flatMap_cons, List.append_assoc]
        congr 2
        simp only [List.flatMap_def]
        congr 1
        apply List.map_congr_left
        intro ir hir
        have hmem : ir.2 ∈ rest := by
          obtain ⟨i, r⟩ := ir
          have := (List.mem_enumFrom hir).2.2
          simp only [this]
          exact List.getElem_mem _
        rw [hval _ hmem, herr _ hmem]

/-! ## `Split`, the last code and the printed lines -/

theorem splitChars_ne_nil (sep : Char) (cs : List Char) : splitChars sep cs ≠ [] := by
  cases cs with
  | nil => simp [splitChars]
  | cons c cs =>
    simp only [splitChars]
    split
    · simp
    · split <;> simp

/-- A string that contains the separator splits into at least two segments. -/
theorem splitChars_two (sep : Char) (cs : List Char) (h : sep ∈ cs) :
    ∃ a b rest, splitChars sep cs = a :: b :: rest := by
  induction cs with
  | nil => simp at h
  | cons c cs ih =>
    simp only [splitChars]
    by_cases hc : c = sep
    · simp only [hc, if_true]
      cases hs : splitChars sep cs with
      | nil => exact absurd hs (splitChars_ne_nil sep cs)
      | cons b rest => exact ⟨[], b, rest, rfl⟩
    · simp only [hc, if_false]
      have hmem : sep ∈ cs := by
        rcases List.mem_cons.1 h with h1 | h1
        · exact absurd h1.symm hc
        · exact h1
      obtain ⟨a, b, rest, hab⟩ := ih hmem
      exact ⟨c :: a, b, rest, by rw [hab]⟩

/-- A code that contains `.` has a second segment. -/
theorem Split_second (code : String) (h : '.' ∈ code.data) :
    ∃ stock, (Split code '.')[1]? = some stock := by
  obtain ⟨a, b, rest, hab⟩ := splitChars_two '.' code.data h
  exact ⟨String.mk b, by simp [Split, hab]⟩

theorem lastCode_append_singleton (code0 : String) (earlier : List (List String))
    (last : List String) : lastCode code0 (earlier ++ [last]) = last.getD 1 "" := by
  simp [lastCode, List.foldl_append]

theorem lastCode_of_getLast (code0 : String) (rows : List (List String)) (last : List String)
    (h : rows.getLast? = some last) : lastCode code0 rows = last.getD 1 "" := by
  obtain ⟨earlier, rfl⟩ := List.getLast?_eq_some_iff.1 h
  exact lastCode_append_singleton code0 earlier last

theorem filter_flatMap_ite {α β : Type} (l : List α) (p : α → Bool) (f : α → List β) :
    (l.filter p).flatMap f = l.flatMap (fun a => if p a then f a else []) := by
  induction l with
  | nil => rfl
  | cons a l ih =>
    by_cases h : p a
    · simp [List.filter_cons, h, ih]
    · simp [List.filter_cons, h, ih]

/-- For a data row with all 16 numeric fields, what the report loop prints is one
diagnostic for every failed column other than column 8, in column order. -/
theorem reportErrs_full {ε τ φ File : Type} (lib : Lib ε τ φ File) (i : Nat)
    (ar0 : Fin 16 → φ) (errs0 : Fin 16 → Option ε) (row : List String)
    (hrow : row.length = 18) :
    reportErrs i (slotValue lib ar0 row) (slotErr lib errs0 row) =
      ((List.range 16).filter fun j => (numErr lib row j).isSome && decide (j ≠ 8)).flatMap
        fun j => [Line.errAt i j, Line.parsedValue (numVal lib row j)] := by
  rw [filter_flatMap_ite, ← List.map_coe_finRange 16, List.flatMap_map]
  simp only [reportErrs, List.flatMap_def]
  congr 1
  apply List.map_congr_left
  intro j _
  have hj : j.val + 2 < row.length := by have := j.isLt; omega
  simp only [reportErr, slotValue, slotErr, numErr, numVal, List.getElem?_eq_getElem hj]
  cases (lib.ParseFloat row[j.val + 2]).2 with
  | none => simp
  | some e =>
    by_cases h8 : j.val = 8
    · simp [h8]
    · simp [h8]

theorem slotValue_full {ε τ φ File : Type} (lib : Lib ε τ φ File) (ar0 : Fin 16 → φ)
    (row : List String) (hrow : row.length = 18) (j : Fin 16) :
    slotValue lib ar0 row j = numVal lib row j.val := by
  have hj : j.val + 2 < row.length := by have := j.isLt; omega
  simp only [slotValue, numVal, List.getElem?_eq_getElem hj]

/-! ## `ReadData` on rows of 18 fields -/

/-- The row loop of `ReadData` over rows of 18 fields, from the initial variables. -/
theorem rowLoop_full {ε τ φ File : Type} (lib : Lib ε τ φ File) (rows : List (List String))
    (h18 : ∀ r ∈ rows, r.length = 18) :
    ∃ v1, rowLoop lib 0 rows (initVars lib) = (v1.stdout, .ok v1) ∧
      v1.stdout = expectedDiags lib rows ∧
      v1.code = lastCode "" rows ∧
      v1.tbl.Dates = rows.map (fun r => (lib.Parse (r.getD 0 "")).1) ∧
      ∀ j, v1.tbl.column j = rows.map (fun r => numVal lib r j.val) := by
  obtain ⟨v1, hrun, _, hdates, hcols, hcode, hout⟩ :=
    rowLoop_uniform lib 16 (Nat.le_refl 16) rows h18 0 (initVars lib)
  refine ⟨v1, hrun, ?_, hcode, ?_, ?_⟩
  · rw [hout]
    simp only [initVars, List.nil_append, expectedDiags, List.enum_eq_enumFrom,
      List.flatMap_def]
    congr 1
    apply List.map_congr_left
    intro ir hir
    have hmem : ir.2 ∈ rows := by
      obtain ⟨i, r⟩ := ir
      have := (List.mem_enumFrom hir).2.2
      simp only [this]
      exact List.getElem_mem _
    exact reportErrs_full lib ir.1 _ _ ir.2 (h18 _ hmem)
  · rw [hdates]; simp [initVars]
  · intro j
    rw [hcols j]
    have h0 : (initVars lib).tbl.column j = [] := by fin_cases j <;> rfl
    rw [h0, List.nil_append]
    apply List.map_congr_left
    intro r hr
    exact slotValue_full lib _ r (h18 r hr) j

/-- What `ReadData` prints when every data row has 18 fields. -/
theorem readRecords_stdout {ε τ φ File : Type} (lib : Lib ε τ φ File) (header : List String)
    (rows : List (List String)) (h18 : ∀ r ∈ rows, r.length = 18) :
    (readRecords lib (header :: rows)).stdout = expectedDiags lib rows := by
  obtain ⟨v1, hrun, hout, _, _, _⟩ := rowLoop_full lib rows h18
  simp only [readRecords, hrun]
  split <;> exact hout

/-- The run of `ReadData` on a header and data rows of 18 fields whose last code has a second
segment: the whole run in closed form. -/
theorem readRecords_full {ε τ φ File : Type} (lib : Lib ε τ φ File) (header : List String)
    (rows : List (List String)) (h18 : ∀ r ∈ rows, r.length = 18)
    (hdot : ∃ last, rows.getLast? = some last ∧ '.' ∈ (last.getD 1 "").data) :
    ∃ tbl, readRecords lib (header :: rows) =
        { stdout := expectedDiags lib rows, closed := true, outcome := .returned tbl } ∧
      (∃ last, rows.getLast? = some last ∧
        (Split (last.getD 1 "") '.')[1]? = some tbl.StockCode) ∧
      tbl.Dates = rows.map (fun r => (lib.Parse (r.getD 0 "")).1) ∧
      ∀ j, tbl.column j = rows.map (fun r => numVal lib r j.val) := by
  obtain ⟨v1, hrun, hout, hcode, hdates, hcols⟩ := rowLoop_full lib rows h18
  obtain ⟨last, hlast, hmem⟩ := hdot
  obtain ⟨stock, hstock⟩ := Split_second _ hmem
  have hc : v1.code = last.getD 1 "" := by rw [hcode, lastCode_of_getLast "" rows last hlast]
  refine ⟨{ v1.tbl with StockCode := stock }, ?_, ⟨last, hlast, hstock⟩, hdates, ?_⟩
  · simp only [readRecords, hrun, hc, hstock, hout]
  · intro j
    rw [← hcols j]
    fin_cases j <;> rfl

/-- The run of `ReadData` is `readRecords` on what `ReadAll` returned. -/
theorem ReadData_records {ε τ φ File : Type} (lib : Lib ε τ φ File) (path : String) (f : File)
    (all : List (List String)) (hopen : lib.Open path = .ok f)
    (hread : lib.ReadAll f = .ok all) : ReadData lib path = readRecords lib all := by
  simp only [ReadData, hopen, hread]

/-- Every row that the row loop processed without a panic has at least two fields. -/
theorem rowLoop_min_fields {ε τ φ File : Type} (lib : Lib ε τ φ File)
    (rows : List (List String)) :
    ∀ (i0 : Nat) (v v1 : Vars ε τ φ) (out : List (Line φ)),
      rowLoop lib i0 rows v = (out, .ok v1) → ∀ r ∈ rows, 2 ≤ r.length := by
  induction rows with
  | nil => intro i0 v v1 out _ r hr; simp at hr
  | cons row rest ih =>
    intro i0 v v1 out h r hr
    simp only [rowLoop] at h
    cases hs : rowStep lib i0 row v with
    | error p => rw [hs] at h; simp at h
    | ok v2 =>
      rw [hs] at h
      rcases List.mem_cons.1 hr with h1 | h1
      · rw [h1]; exact (rowStep_code lib i0 row v v2 hs).2
      · exact ih (i0 + 1) v2 v1 out h r h1

/-! ## The Go parsers -/

theorem timeParse_ok_or_zero (s : String) :
    (timeParse s).2 = none ∨ (timeParse s).1 = Time.zero := by
  unfold timeParse
  split
  · split
    · simp only []
      split
      · exact Or.inr rfl
      · split
        · exact Or.inr rfl
        · exact Or.inl rfl
    · exact Or.inr rfl
  · exact Or.inr rfl

/-- The model of `time.Parse` returns the zero time whenever it returns an error. -/
theorem timeParse_err (s : String) (h : (timeParse s).2 ≠ none) :
    (timeParse s).1 = Time.zero := by
  rcases timeParse_ok_or_zero s with h1 | h1
  · exact absurd h1 h
  · exact h1

/-- The model of `strconv.ParseFloat` returns `0` with `ErrSyntax`, an infinity with `ErrRange`, and
no other error. -/
theorem ParseFloat_err (s : String) (e : GoError) (h : (ParseFloat s).2 = some e) :
    (e = .ErrSyntax ∧ (ParseFloat s).1 = float64.zero) ∨
    (e = .ErrRange ∧
      ((ParseFloat s).1 = float64.inf false ∨ (ParseFloat s).1 = float64.inf true)) := by
  unfold ParseFloat at h ⊢
  split
  · rename_i h1
    simp [h1] at h
  · rename_i h1
    split
    · rename_i h2
      simp only [h1, h2, Option.some.injEq] at h
      exact Or.inl ⟨h.symm, rfl⟩
    · rename_i x h2
      simp only [h1, h2] at h
      split
      · rename_i h3
        simp only [h3, if_true, Option.some.injEq] at h
        refine Or.inr ⟨h.symm, ?_⟩
        cases x.neg
        · exact Or.inl rfl
        · exact Or.inr rfl
      · rename_i h3
        simp [h3] at h

/-- The `err at` lines among the expected diagnostics. -/
theorem mem_expectedDiags {ε τ φ File : Type} (lib : Lib ε τ φ File)
    (rows : List (List String)) (i j : Nat) :
    Line.errAt i j ∈ expectedDiags lib rows ↔
      ∃ row, rows[i]? = some row ∧ j < 16 ∧ j ≠ 8 ∧ (numErr lib row j).isSome := by
  simp only [expectedDiags, List.mem_flatMap, List.mem_filter, List.mem_range, Prod.exists,
    List.mk_mem_enum_iff_getElem?, List.mem_cons, Line.errAt.injEq, List.mem_singleton,
    Bool.and_eq_true, decide_eq_true_eq, reduceCtorEq, or_false, List.not_mem_nil]
  constructor
  · rintro ⟨i1, row, hrow, j1, ⟨hj, herr, h8⟩, hi, hjj⟩
    subst hi; subst hjj
    exact ⟨row, hrow, hj, h8, herr⟩
  · rintro ⟨row, hrow, hj, h8, herr⟩
    exact ⟨i, row, hrow, j, ⟨hj, herr, h8⟩, rfl, rfl⟩

/-! ## The claims -/

/-- C1: on a header followed by data rows of 18 fields each (the last row's code
containing `.`), `ReadData` returns a table in which element `i` of every sequence comes
from data row `i`, in the fixed column order: `Dates[i]` is the date parse of field 0, and
`Opens`, ..., `IsSTs` at index `i` hold the float parses of fields 2, ..., 17 of that row.
The table has one element per data row, so no row is reordered, dropped or duplicated. -/
theorem C1_rows_in_order {ε τ φ File : Type} (lib : Lib ε τ φ File) (path : String) (f : File)
    (hdr : List String) (rows : List (List String))
    (hopen : lib.Open path = .ok f) (hread : lib.ReadAll f = .ok (hdr :: rows))
    (h18 : ∀ r ∈ rows, r.length = 18)
    (hdot : ∃ last, rows.getLast? = some last ∧ '.' ∈ (last.getD 1 "").data) :
    ∃ tbl, (ReadData lib path).outcome = .returned tbl ∧
      tbl.Dates.length = rows.length ∧
      ∀ (i : Nat) (d c f2 f3 f4 f5 f6 f7 f8 f9 f10 f11 f12 f13 f14 f15 f16 f17 : String),
        rows[i]? = some [d, c, f2, f3, f4, f5, f6, f7, f8, f9, f10, f11, f12, f13, f14, f15,
          f16, f17] →
        tbl.Dates[i]? = some (lib.Parse d).1 ∧
        tbl.Opens[i]? = some (lib.ParseFloat f2).1 ∧
        tbl.Highs[i]? = some (lib.ParseFloat f3).1 ∧
        tbl.Lows[i]? = some (lib.ParseFloat f4).1 ∧
        tbl.Closes[i]? = some (lib.ParseFloat f5).1 ∧
        tbl.PreCloses[i]? = some (lib.ParseFloat f6).1 ∧
        tbl.Volumns[i]? = some (lib.ParseFloat f7).1 ∧
        tbl.Amounts[i]? = some (lib.ParseFloat f8).1 ∧
        tbl.AdjustFlags[i]? = some (lib.ParseFloat f9).1 ∧
        tbl.Turns[i]? = some (lib.ParseFloat f10).1 ∧
        tbl.TradeStatus[i]? = some (lib.ParseFloat f11).1 ∧
        tbl.PctChgs[i]? = some (lib.ParseFloat f12).1 ∧
        tbl.PeTTMs[i]? = some (lib.ParseFloat f13).1 ∧
        tbl.PbMRQs[i]? = some (lib.ParseFloat f14).1 ∧
        tbl.PsTTMs[i]? = some (lib.ParseFloat f15).1 ∧
        tbl.PcfNctTTMs[i]? = some (lib.ParseFloat f16).1 ∧
        tbl.IsSTs[i]? = some (lib.ParseFloat f17).1 := by
  obtain ⟨tbl, hrun, _, hdates, hcols⟩ := readRecords_full lib hdr rows h18 hdot
  refine ⟨tbl, by rw [ReadData_records lib path f _ hopen hread, hrun], ?_, ?_⟩
  · rw [hdates, List.length_map]
  · intro i d c f2 f3 f4 f5 f6 f7 f8 f9 f10 f11 f12 f13 f14 f15 f16 f17 hrow
    have hcol : ∀ j : Fin 16, (tbl.column j)[i]? = some (numVal lib
        [d, c, f2, f3, f4, f5, f6, f7, f8, f9, f10, f11, f12, f13, f14, f15, f16, f17]
        j.val) := by
      intro j
      rw [hcols j, List.getElem?_map, hrow]
      rfl
    refine ⟨?_, hcol 0, hcol 1, hcol 2, hcol 3, hcol 4, hcol 5, hcol 6, hcol 7, hcol 8,
      hcol 9, hcol 10, hcol 11, hcol 12, hcol 13, hcol 14, hcol 15⟩
    rw [hdates, List.getElem?_map, hrow]
    rfl

/-- C2: on a header followed by `n ≥ 1` data rows of 18 fields each (the last row's code
containing `.`), `ReadData` returns a table in which each of the 17 sequences has length
exactly `n`, the record count minus one; so all sequences have the same length. -/
theorem C2_lengths {ε τ φ File : Type} (lib : Lib ε τ φ File) (path : String) (f : File)
    (hdr : List String) (rows : List (List String))
    (hopen : lib.Open path = .ok f) (hread : lib.ReadAll f = .ok (hdr :: rows))
    (h18 : ∀ r ∈ rows, r.length = 18)
    (hdot : ∃ last, rows.getLast? = some last ∧ '.' ∈ (last.getD 1 "").data) :
    ∃ tbl, (ReadData lib path).outcome = .returned tbl ∧
      tbl.Dates.length = (hdr :: rows).length - 1 ∧
      tbl.Opens.length = (hdr :: rows).length - 1 ∧
      tbl.Highs.length = (hdr :: rows).length - 1 ∧
      tbl.Lows.length = (hdr :: rows).length - 1 ∧
      tbl.Closes.length = (hdr :: rows).length - 1 ∧
      tbl.PreCloses.length = (hdr :: rows).length - 1 ∧
      tbl.Volumns.length = (hdr :: rows).length - 1 ∧
      tbl.Amounts.length = (hdr :: rows).length - 1 ∧
      tbl.AdjustFlags.length = (hdr :: rows).length - 1 ∧
      tbl.Turns.length = (hdr :: rows).length - 1 ∧
      tbl.TradeStatus.length = (hdr :: rows).length - 1 ∧
      tbl.PctChgs.length = (hdr :: rows).length - 1 ∧
      tbl.PeTTMs.length = (hdr :: rows).length - 1 ∧
      tbl.PbMRQs.length = (hdr :: rows).length - 1 ∧
      tbl.PsTTMs.length = (hdr :: rows).length - 1 ∧
      tbl.PcfNctTTMs.length = (hdr :: rows).length - 1 ∧
      tbl.IsSTs.length = (hdr :: rows).length - 1 := by
  obtain ⟨tbl, hrun, _, hdates, hcols⟩ := readRecords_full lib hdr rows h18 hdot
  have hcol : ∀ j : Fin 16, (tbl.column j).length = (hdr :: rows).length - 1 := by
    intro j
    rw [hcols j, List.length_map]
    simp
  refine ⟨tbl, by rw [ReadData_records lib path f _ hopen hread, hrun], ?_, hcol 0, hcol 1,
    hcol 2, hcol 3, hcol 4, hcol 5, hcol 6, hcol 7, hcol 8, hcol 9, hcol 10, hcol 11,
    hcol 12, hcol 13, hcol 14, hcol 15⟩
  rw [hdates, List.length_map]
  simp

/-- C3: whenever `ReadData` returns a table on an input with at least one data row,
`StockCode` is the second segment of field 1 of the last data row split on `.`; the
earlier rows, whatever their codes, do not appear in it. -/
theorem C3_stock_code_of_last_row {ε τ φ File : Type} (lib : Lib ε τ φ File) (path : String)
    (f : File) (hdr : List String) (earlier : List (List String)) (last : List String)
    (tbl : Data τ φ)
    (hopen : lib.Open path = .ok f)
    (hread : lib.ReadAll f = .ok (hdr :: (earlier ++ [last])))
    (hret : (ReadData lib path).outcome = .returned tbl) :
    ∃ code, last[1]? = some code ∧ (Split code '.')[1]? = some tbl.StockCode := by
  rw [ReadData_records lib path f _ hopen hread] at hret
  simp only [readRecords] at hret
  cases hloop : rowLoop lib 0 (earlier ++ [last]) (initVars lib) with
  | mk out r =>
    rw [hloop] at hret
    cases r with
    | error p => simp at hret
    | ok v =>
      have hcode : v.code = last.getD 1 "" := by
        rw [rowLoop_code lib _ 0 _ v out hloop, lastCode_append_singleton]
      have hlen : 2 ≤ last.length :=
        rowLoop_min_fields lib _ 0 _ v out hloop last (by simp)
      simp only [hcode] at hret
      cases hs : (Split (last.getD 1 "") '.')[1]? with
      | none => rw [hs] at hret; simp at hret
      | some stock =>
        rw [hs] at hret
        simp only [Outcome.returned.injEq] at hret
        refine ⟨last.getD 1 "", ?_, ?_⟩
        · rw [List.getD_eq_getElem?_getD, List.getElem?_eq_getElem (by omega)]
          rfl
        · rw [← hret]
          exact hs

/-- C4: on a header plus data rows of 18 fields each, what `ReadData` prints is exactly,
in row order and then column order, one diagnostic for every pair `(i, j)` such that the
float parse of field `j + 2` of data row `i` fails and `j` is not 8, the turnover column:
a failed turnover field prints nothing, a failed field of any other numeric column
prints its diagnostic, and a field that parses prints nothing. -/
theorem C4_diagnostics {ε τ φ File : Type} (lib : Lib ε τ φ File) (path : String) (f : File)
    (hdr : List String) (rows : List (List String))
    (hopen : lib.Open path = .ok f) (hread : lib.ReadAll f = .ok (hdr :: rows))
    (h18 : ∀ r ∈ rows, r.length = 18) :
    (ReadData lib path).stdout = expectedDiags lib rows := by
  rw [ReadData_records lib path f _ hopen hread]
  exact readRecords_stdout lib hdr rows h18

/-- C5, as amended: in a table returned for data rows of 18 fields, a numeric field whose
float parse fails leaves at its row's index the value the parser returned with the
error: zero when the field is no well-formed number (`ErrSyntax`), an infinity when it
is a number beyond the `float64` range (`ErrRange`).  The failure stops nothing: the
table is returned and every sequence has one element per data row. -/
theorem C5_failed_field_value
    (fs : String → Except GoError (Except GoError (List (List String)))) (path : String)
    (f : Except GoError (List (List String))) (hdr : List String)
    (rows : List (List String))
    (hopen : (goLib fs).Open path = .ok f) (hread : (goLib fs).ReadAll f = .ok (hdr :: rows))
    (h18 : ∀ r ∈ rows, r.length = 18)
    (hdot : ∃ last, rows.getLast? = some last ∧ '.' ∈ (last.getD 1 "").data) :
    ∃ tbl, (ReadData (goLib fs) path).outcome = .returned tbl ∧
      tbl.Dates.length = rows.length ∧
      (∀ j, (tbl.column j).length = rows.length) ∧
      ∀ (i : Nat) (row : List String) (j : Fin 16) (s : String) (e : GoError),
        rows[i]? = some row → row[j.val + 2]? = some s → (ParseFloat s).2 = some e →
        (e = .ErrSyntax ∧ (tbl.column j)[i]? = some float64.zero) ∨
        (e = .ErrRange ∧ ((tbl.column j)[i]? = some (float64.inf false) ∨
          (tbl.column j)[i]? = some (float64.inf true))) := by
  obtain ⟨tbl, hrun, _, hdates, hcols⟩ := readRecords_full (goLib fs) hdr rows h18 hdot
  refine ⟨tbl, by rw [ReadData_records _ path f _ hopen hread, hrun], ?_, ?_, ?_⟩
  · rw [hdates, List.length_map]
  · intro j
    rw [hcols j, List.length_map]
  · intro i row j s e hrow hs herr
    have hcell : (tbl.column j)[i]? = some (ParseFloat s).1 := by
      rw [hcols j, List.getElem?_map, hrow]
      simp only [Option.map_some', numVal, hs]
      rfl
    rw [hcell]
    rcases ParseFloat_err s e herr with ⟨h1, h2⟩ | ⟨h1, h2 | h2⟩
    · exact Or.inl ⟨h1, by rw [h2]⟩
    · exact Or.inr ⟨h1, Or.inl (by rw [h2])⟩
    · exact Or.inr ⟨h1, Or.inr (by rw [h2])⟩

/-- C6: in a table returned for data rows of 18 fields, a row whose field 0 is no date in
the pattern `YYYY-MM-DD` has the zero time at its index in `Dates`, whatever the row
before it held; the load does not abort, and the 16 numeric values of that row stand at
the same index. -/
theorem C6_bad_date_is_zero_time
    (fs : String → Except GoError (Except GoError (List (List String)))) (path : String)
    (f : Except GoError (List (List String))) (hdr : List String)
    (rows : List (List String))
    (hopen : (goLib fs).Open path = .ok f) (hread : (goLib fs).ReadAll f = .ok (hdr :: rows))
    (h18 : ∀ r ∈ rows, r.length = 18)
    (hdot : ∃ last, rows.getLast? = some last ∧ '.' ∈ (last.getD 1 "").data) :
    ∃ tbl, (ReadData (goLib fs) path).outcome = .returned tbl ∧
      ∀ (i : Nat) (row : List String) (d : String),
        rows[i]? = some row → row[0]? = some d → (timeParse d).2 ≠ none →
        tbl.Dates[i]? = some Time.zero ∧
        ∀ (j : Fin 16) (s : String), row[j.val + 2]? = some s →
          (tbl.column j)[i]? = some (ParseFloat s).1 := by
  obtain ⟨tbl, hrun, _, hdates, hcols⟩ := readRecords_full (goLib fs) hdr rows h18 hdot
  refine ⟨tbl, by rw [ReadData_records _ path f _ hopen hread, hrun], ?_⟩
  intro i row d hrow hd herr
  constructor
  · rw [hdates, List.getElem?_map, hrow]
    simp only [Option.map_some', List.getD_eq_getElem?_getD, hd, Option.getD_some]
    exact congrArg some (timeParse_err d herr)
  · intro j s hs
    rw [hcols j, List.getElem?_map, hrow]
    simp only [Option.map_some', numVal, hs]
    rfl

/-- C7: on a file with the header line and no data row, `ReadData` does not return the
empty table: the row loop runs zero times, `code` is still the empty string, and
`strings.Split(code, ".")[1]` panics with an index out of range. -/
theorem C7_header_only_panics :
    ReadData (goLib (oneFile [header])) "data.csv" =
      { stdout := [], closed := true, outcome := .panicked (.indexOutOfRange 1 1) } := by
  decide

/-- C8, as amended: on a header plus data rows of 18 fields each, `ReadData` prints the
line `err at (i, j)` exactly when `j` is one of the 16 numeric columns other than column
8 (turnover) and the float parse of field `j + 2` of data row `i` fails.  So a failed
numeric field other than turnover always has its diagnostic, and neither a failed
turnover field nor a date that does not parse has one. -/
theorem C8_numeric_failures_reported {ε τ φ File : Type} (lib : Lib ε τ φ File)
    (path : String) (f : File) (hdr : List String) (rows : List (List String))
    (hopen : lib.Open path = .ok f) (hread : lib.ReadAll f = .ok (hdr :: rows))
    (h18 : ∀ r ∈ rows, r.length = 18) (i j : Nat) :
    Line.errAt i j ∈ (ReadData lib path).stdout ↔
      ∃ row s e, rows[i]? = some row ∧ j < 16 ∧ j ≠ 8 ∧ row[j + 2]? = some s ∧
        (lib.ParseFloat s).2 = some e := by
  rw [ReadData_records lib path f _ hopen hread, readRecords_stdout lib hdr rows h18,
    mem_expectedDiags]
  constructor
  · rintro ⟨row, hrow, hj, h8, herr⟩
    simp only [numErr] at herr
    cases hs : row[j + 2]? with
    | none => rw [hs] at herr; simp at herr
    | some s =>
      rw [hs] at herr
      obtain ⟨e, he⟩ := Option.isSome_iff_exists.1 herr
      exact ⟨row, s, e, hrow, hj, h8, hs, he⟩
  · rintro ⟨row, s, e, hrow, hj, h8, hs, he⟩
    exact ⟨row, hrow, hj, h8, by simp [numErr, hs, he]⟩

/-- C9, as amended: `ReadData` copies the parsed fields and relates no row to another.
In a table returned for data rows of 18 fields, for every index `i + 1`: the trade
status there is zero exactly when the parsed trade-status field of data row `i + 1` is
zero, and open, high, low and close there equal the close at index `i` with volume and
amount zero exactly when the parsed fields of the two input rows are so related. -/
theorem C9_suspended_day_copied {ε τ φ File : Type} (lib : Lib ε τ φ File) (path : String)
    (f : File) (hdr : List String) (rows : List (List String))
    (hopen : lib.Open path = .ok f) (hread : lib.ReadAll f = .ok (hdr :: rows))
    (h18 : ∀ r ∈ rows, r.length = 18)
    (hdot : ∃ last, rows.getLast? = some last ∧ '.' ∈ (last.getD 1 "").data) :
    ∃ tbl, (ReadData lib path).outcome = .returned tbl ∧
      ∀ (i : Nat) (prev cur : List String),
        rows[i]? = some prev → rows[i + 1]? = some cur →
        (tbl.TradeStatus[i + 1]? = some lib.zeroFloat ↔ numVal lib cur 9 = lib.zeroFloat) ∧
        ((tbl.Opens[i + 1]? = tbl.Closes[i]? ∧ tbl.Highs[i + 1]? = tbl.Closes[i]? ∧
            tbl.Lows[i + 1]? = tbl.Closes[i]? ∧ tbl.Closes[i + 1]? = tbl.Closes[i]? ∧
            tbl.Volumns[i + 1]? = some lib.zeroFloat ∧
            tbl.Amounts[i + 1]? = some lib.zeroFloat) ↔
          (numVal lib cur 0 = numVal lib prev 3 ∧ numVal lib cur 1 = numVal lib prev 3 ∧
            numVal lib cur 2 = numVal lib prev 3 ∧ numVal lib cur 3 = numVal lib prev 3 ∧
            numVal lib cur 5 = lib.zeroFloat ∧ numVal lib cur 6 = lib.zeroFloat)) := by
  obtain ⟨tbl, hrun, _, _, hcols⟩ := readRecords_full lib hdr rows h18 hdot
  refine ⟨tbl, by rw [ReadData_records lib path f _ hopen hread, hrun], ?_⟩
  intro i prev cur hprev hcur
  have hp : ∀ j : Fin 16, (tbl.column j)[i]? = some (numVal lib prev j.val) := by
    intro j
    rw [hcols j, List.getElem?_map, hprev]
    rfl
  have hc : ∀ j : Fin 16, (tbl.column j)[i + 1]? = some (numVal lib cur j.val) := by
    intro j
    rw [hcols j, List.getElem?_map, hcur]
    rfl
  have hts : tbl.TradeStatus[i + 1]? = some (numVal lib cur 9) := hc 9
  have ho : tbl.Opens[i + 1]? = some (numVal lib cur 0) := hc 0
  have hh : tbl.Highs[i + 1]? = some (numVal lib cur 1) := hc 1
  have hl : tbl.Lows[i + 1]? = some (numVal lib cur 2) := hc 2
  have hcl : tbl.Closes[i + 1]? = some (numVal lib cur 3) := hc 3
  have hv : tbl.Volumns[i + 1]? = some (numVal lib cur 5) := hc 5
  have ha : tbl.Amounts[i + 1]? = some (numVal lib cur 6) := hc 6
  have hpc : tbl.Closes[i]? = some (numVal lib prev 3) := hp 3
  rw [hts, ho, hh, hl, hcl, hv, ha, hpc]
  simp only [Option.some.injEq]
  exact ⟨trivial, trivial⟩

/-- C10: when the file cannot be opened, or the CSV reader returns an error, `ReadData`
ends in `log.Fatal` with that error: no table is returned, not even a partial one, and
nothing was printed, since no row was processed. -/
theorem C10_fatal_on_io_error {ε τ φ File : Type} (lib : Lib ε τ φ File) (path : String)
    (e : ε)
    (h : lib.Open path = .error e ∨ ∃ f, lib.Open path = .ok f ∧ lib.ReadAll f = .error e) :
    (ReadData lib path).outcome = .fatal e ∧ (ReadData lib path).stdout = [] ∧
      ∀ tbl, (ReadData lib path).outcome ≠ .returned tbl := by
  rcases h with h | ⟨f, h1, h2⟩
  · simp [ReadData, h]
  · simp [ReadData, h1, h2]

/-! ## The claims at concrete inputs -/

/-- C1 on the example of the specification: one data row, `Opens[0]` is the parse of
`10.0`. -/
theorem C1_rows_in_order_witness :
    ∃ tbl, (ReadData (goLib (oneFile [header, exampleRow])) "data.csv").outcome
        = .returned tbl ∧
      tbl.Dates.length = 1 ∧
      tbl.Dates[0]? = some (timeParse "2020-01-02").1 ∧
      tbl.Opens[0]? = some (ParseFloat "10.0").1 ∧
      tbl.Highs[0]? = some (ParseFloat "10.5").1 ∧
      tbl.Lows[0]? = some (ParseFloat "9.8").1 ∧
      tbl.Closes[0]? = some (ParseFloat "10.2").1 ∧
      tbl.PreCloses[0]? = some (ParseFloat "10.0").1 ∧
      tbl.Volumns[0]? = some (ParseFloat "1000000").1 ∧
      tbl.Amounts[0]? = some (ParseFloat "10200000").1 ∧
      tbl.AdjustFlags[0]? = some (ParseFloat "1").1 ∧
      tbl.Turns[0]? = some (ParseFloat "0.5").1 ∧
      tbl.TradeStatus[0]? = some (ParseFloat "1").1 ∧
      tbl.PctChgs[0]? = some (ParseFloat "2.0").1 ∧
      tbl.PeTTMs[0]? = some (ParseFloat "15.3").1 ∧
      tbl.PbMRQs[0]? = some (ParseFloat "1.2").1 ∧
      tbl.PsTTMs[0]? = some (ParseFloat "2.1").1 ∧
      tbl.PcfNctTTMs[0]? = some (ParseFloat "8.4").1 ∧
      tbl.IsSTs[0]? = some (ParseFloat "0").1 := by
  obtain ⟨tbl, hret, hlen, h⟩ := C1_rows_in_order (goLib (oneFile [header, exampleRow]))
    "data.csv" (.ok [header, exampleRow]) header [exampleRow] rfl rfl (by decide)
    ⟨exampleRow, rfl, by decide⟩
  exact ⟨tbl, hret, hlen, h 0 "2020-01-02" "sh.600000" "10.0" "10.5" "9.8" "10.2" "10.0"
    "1000000" "10200000" "1" "0.5" "1" "2.0" "15.3" "1.2" "2.1" "8.4" "0" rfl⟩

/-- C2 on a file of the header and two data rows: every sequence has length 2. -/
theorem C2_lengths_witness :
    ∃ tbl, (ReadData (goLib (oneFile [header, exampleRow, suspendedRow])) "data.csv").outcome
        = .returned tbl ∧
      tbl.Dates.length = 2 ∧ tbl.Opens.length = 2 ∧ tbl.Highs.length = 2 ∧
      tbl.Lows.length = 2 ∧ tbl.Closes.length = 2 ∧ tbl.PreCloses.length = 2 ∧
      tbl.Volumns.length = 2 ∧ tbl.Amounts.length = 2 ∧ tbl.AdjustFlags.length = 2 ∧
      tbl.Turns.length = 2 ∧ tbl.TradeStatus.length = 2 ∧ tbl.PctChgs.length = 2 ∧
      tbl.PeTTMs.length = 2 ∧ tbl.PbMRQs.length = 2 ∧ tbl.PsTTMs.length = 2 ∧
      tbl.PcfNctTTMs.length = 2 ∧ tbl.IsSTs.length = 2 :=
  C2_lengths (goLib (oneFile [header, exampleRow, suspendedRow])) "data.csv"
    (.ok [header, exampleRow, suspendedRow]) header [exampleRow, suspendedRow] rfl rfl
    (by decide) ⟨suspendedRow, rfl, by decide⟩

/-- C3 on a file whose first data row has the code `sz.000001` and whose last data row
has the code `sh.600000`: the stock code is `600000`. -/
theorem C3_stock_code_of_last_row_witness :
    (ReadData (goLib (oneFile [header, otherStockRow, exampleRow])) "data.csv").outcome
        = .returned twoStockTable ∧
      ∃ code, exampleRow[1]? = some code ∧ (Split code '.')[1]? = some "600000" :=
  ⟨by decide,
   C3_stock_code_of_last_row (goLib (oneFile [header, otherStockRow, exampleRow])) "data.csv"
    (.ok [header, otherStockRow, exampleRow]) header [otherStockRow] exampleRow twoStockTable
    rfl rfl (by decide)⟩

/-- C4 on a file whose first data row has an open price out of range, a high price that
is no number, a blank turnover and a blank P/E, and whose second data row has a blank
turnover: three diagnostics, none for the turnover column. -/
theorem C4_diagnostics_witness :
    (ReadData (goLib (oneFile [header, brokenRow, suspendedRow])) "data.csv").stdout =
      [.errAt 0 0, .parsedValue (float64.inf false), .errAt 0 1, .parsedValue float64.zero,
       .errAt 0 11, .parsedValue float64.zero] :=
  (C4_diagnostics (goLib (oneFile [header, brokenRow, suspendedRow])) "data.csv"
    (.ok [header, brokenRow, suspendedRow]) header [brokenRow, suspendedRow] rfl rfl
    (by decide)).trans (by decide)

/-- C5, as stated, fails: the open field `1e400` does not parse (`ErrRange`), and the
value stored in `Opens` for its row is `+Inf`, not zero. -/
theorem C5_counterexample :
    overflowRow[2]? = some "1e400" ∧ (ParseFloat "1e400").2 = some GoError.ErrRange ∧
      ∃ tbl, (ReadData (goLib (oneFile [header, overflowRow])) "data.csv").outcome
          = .returned tbl ∧
        tbl.Opens[0]? = some (float64.inf false) ∧ tbl.Opens[0]? ≠ some float64.zero :=
  ⟨by decide, by decide, _, rfl, by decide, by decide⟩

/-- C5, as amended, on a row with an open price out of range and a high price that is
no number: `Opens[0]` is an infinity, `Highs[0]` is zero, and the row after it is in
the table. -/
theorem C5_failed_field_value_witness :
    ∃ tbl, (ReadData (goLib (oneFile [header, brokenRow, suspendedRow])) "data.csv").outcome
        = .returned tbl ∧
      tbl.Dates.length = 2 ∧
      (GoError.ErrSyntax = GoError.ErrSyntax ∧ tbl.Highs[0]? = some float64.zero ∨
        GoError.ErrSyntax = GoError.ErrRange ∧ (tbl.Highs[0]? = some (float64.inf false) ∨
          tbl.Highs[0]? = some (float64.inf true))) ∧
      (GoError.ErrRange = GoError.ErrSyntax ∧ tbl.Opens[0]? = some float64.zero ∨
        GoError.ErrRange = GoError.ErrRange ∧ (tbl.Opens[0]? = some (float64.inf false) ∨
          tbl.Opens[0]? = some (float64.inf true))) := by
  obtain ⟨tbl, hret, hlen, _, h⟩ := C5_failed_field_value
    (oneFile [header, brokenRow, suspendedRow]) "data.csv"
    (.ok [header, brokenRow, suspendedRow]) header [brokenRow, suspendedRow] rfl rfl
    (by decide) ⟨suspendedRow, rfl, by decide⟩
  exact ⟨tbl, hret, hlen, h 0 brokenRow 1 "abc" .ErrSyntax rfl rfl (by decide),
    h 0 brokenRow 0 "1e400" .ErrRange rfl rfl (by decide)⟩

/-- C6 on a file whose second data row has the date `2020/01/02`: `Dates[1]` is the
zero time, not the date of the first row, and `Opens[1]` is the parse of that row's
open field. -/
theorem C6_bad_date_is_zero_time_witness :
    ∃ tbl, (ReadData (goLib (oneFile [header, exampleRow, badDateRow])) "data.csv").outcome
        = .returned tbl ∧
      tbl.Dates[1]? = some Time.zero ∧ tbl.Opens[1]? = some (ParseFloat "10.0").1 := by
  obtain ⟨tbl, hret, h⟩ := C6_bad_date_is_zero_time
    (oneFile [header, exampleRow, badDateRow]) "data.csv"
    (.ok [header, exampleRow, badDateRow]) header [exampleRow, badDateRow] rfl rfl
    (by decide) ⟨badDateRow, rfl, by decide⟩
  obtain ⟨hdate, hnum⟩ := h 1 badDateRow "2020/01/02" rfl rfl (by decide)
  exact ⟨tbl, hret, hdate, hnum 0 "10.0" rfl⟩

/-- C8, as stated, fails: the date `2020/01/02` of the only data row does not parse,
and `ReadData` prints nothing. -/
theorem C8_counterexample :
    badDateRow[0]? = some "2020/01/02" ∧
      (timeParse "2020/01/02").2 = some GoError.ParseError ∧
      (ReadData (goLib (oneFile [header, badDateRow])) "data.csv").stdout = [] :=
  ⟨by decide, by decide, by decide⟩

/-- C8, as amended, on a row whose high price is no number and whose turnover is blank:
the high price (column 1) has its diagnostic, the turnover (column 8) has none. -/
theorem C8_numeric_failures_reported_witness :
    Line.errAt 0 1 ∈ (ReadData (goLib (oneFile [header, brokenRow])) "data.csv").stdout ∧
      Line.errAt 0 8 ∉ (ReadData (goLib (oneFile [header, brokenRow])) "data.csv").stdout :=
  ⟨(C8_numeric_failures_reported (goLib (oneFile [header, brokenRow])) "data.csv"
      (.ok [header, brokenRow]) header [brokenRow] rfl rfl (by decide) 0 1).2
      ⟨brokenRow, "abc", .ErrSyntax, rfl, by decide, by decide, rfl, by decide⟩,
   fun hmem => by
      obtain ⟨_, _, _, _, _, h8, _⟩ :=
        (C8_numeric_failures_reported (goLib (oneFile [header, brokenRow])) "data.csv"
          (.ok [header, brokenRow]) header [brokenRow] rfl rfl (by decide) 0 8).1 hmem
      exact h8 rfl⟩

/-- C9, as stated, fails: the second data row has trade status 0, and its open price in
the table is not the close of the row before it, nor is its volume zero. -/
theorem C9_counterexample :
    ∃ tbl, (ReadData (goLib (oneFile [header, exampleRow, haltedRow])) "data.csv").outcome
        = .returned tbl ∧
      tbl.TradeStatus[1]? = some float64.zero ∧ tbl.Opens[1]? ≠ tbl.Closes[0]? ∧
      tbl.Volumns[1]? ≠ some float64.zero :=
  ⟨_, rfl, by decide, by decide, by decide⟩

/-- C9, as amended, on a file whose second data row is a suspended day as the data
format describes it: the table shows the same relation. -/
theorem C9_suspended_day_copied_witness :
    ∃ tbl, (ReadData (goLib (oneFile [header, exampleRow, suspendedRow])) "data.csv").outcome
        = .returned tbl ∧
      tbl.TradeStatus[1]? = some float64.zero ∧
      tbl.Opens[1]? = tbl.Closes[0]? ∧ tbl.Highs[1]? = tbl.Closes[0]? ∧
      tbl.Lows[1]? = tbl.Closes[0]? ∧ tbl.Closes[1]? = tbl.Closes[0]? ∧
      tbl.Volumns[1]? = some float64.zero ∧ tbl.Amounts[1]? = some float64.zero := by
  obtain ⟨tbl, hret, h⟩ := C9_suspended_day_copied
    (goLib (oneFile [header, exampleRow, suspendedRow])) "data.csv"
    (.ok [header, exampleRow, suspendedRow]) header [exampleRow, suspendedRow] rfl rfl
    (by decide) ⟨suspendedRow, rfl, by decide⟩
  obtain ⟨hts, hrel⟩ := h 0 exampleRow suspendedRow rfl rfl
  exact ⟨tbl, hret, hts.2 (by decide), hrel.2 (by decide)⟩

/-- C10 on a path that does not open, and on a file on which the CSV reader fails. -/
theorem C10_fatal_on_io_error_witness :
    ((ReadData (goLib (oneFile [header, exampleRow])) "missing.csv").outcome
        = .fatal (.PathError "missing.csv") ∧
      (ReadData (goLib (oneFile [header, exampleRow])) "missing.csv").stdout = [] ∧
      ∀ tbl, (ReadData (goLib (oneFile [header, exampleRow])) "missing.csv").outcome
        ≠ .returned tbl) ∧
    ((ReadData (goLib brokenCsv) "data.csv").outcome
        = .fatal (.CsvError "wrong number of fields") ∧
      (ReadData (goLib brokenCsv) "data.csv").stdout = [] ∧
      ∀ tbl, (ReadData (goLib brokenCsv) "data.csv").outcome ≠ .returned tbl) :=
  ⟨C10_fatal_on_io_error (goLib (oneFile [header, exampleRow])) "missing.csv"
      (.PathError "missing.csv") (Or.inl rfl),
   C10_fatal_on_io_error (goLib brokenCsv) "data.csv"
      (.CsvError "wrong number of fields") (Or.inr ⟨_, rfl, rfl⟩)⟩

/-! ## More on `Split` -/

theorem splitChars_no_sep (sep : Char) (cs : List Char) (h : sep ∉ cs) :
    splitChars sep cs = [cs] := by
  induction cs with
  | nil => rfl
  | cons c cs ih =>
    have hc : ¬ c = sep := fun hc => h (by rw [hc]; exact List.mem_cons_self _ _)
    have hcs : sep ∉ cs := fun hm => h (List.mem_cons_of_mem _ hm)
    simp only [splitChars, hc, if_false, ih hcs]

/-- The first segment is the text before the first separator. -/
theorem splitChars_prefix (sep : Char) (a rest : List Char) (h : sep ∉ a) :
    splitChars sep (a ++ sep :: rest) = a :: splitChars sep rest := by
  induction a with
  | nil => simp [splitChars]
  | cons c a ih =>
    have hc : ¬ c = sep := fun hc => h (by rw [hc]; exact List.mem_cons_self _ _)
    have ha : sep ∉ a := fun hm => h (List.mem_cons_of_mem _ hm)
    have e := ih ha
    simp only [List.cons_append, splitChars, hc, if_false]
    show (match splitChars sep (a ++ sep :: rest) with
      | [] => [[c]]
      | seg :: segs => (c :: seg) :: segs) = _
    rw [e]

/-- No segment contains the separator. -/
theorem splitChars_segment_no_sep (sep : Char) (cs : List Char) :
    ∀ seg ∈ splitChars sep cs, sep ∉ seg := by
  induction cs with
  | nil => intro seg hseg; simp [splitChars] at hseg; simp [hseg]
  | cons c cs ih =>
    intro seg hseg
    simp only [splitChars] at hseg
    by_cases hc : c = sep
    · simp only [hc, if_true, List.mem_cons] at hseg
      rcases hseg with h1 | h1
      · simp [h1]
      · exact ih seg h1
    · simp only [hc, if_false] at hseg
      cases hs : splitChars sep cs with
      | nil => exact absurd hs (splitChars_ne_nil sep cs)
      | cons s0 segs =>
        rw [hs] at hseg ih
        simp only [List.mem_cons] at hseg
        rcases hseg with h1 | h1
        · rw [h1]
          intro hm
          rcases List.mem_cons.1 hm with h2 | h2
          · exact hc h2.symm
          · exact ih s0 (List.mem_cons_self _ _) h2
        · exact ih seg (List.mem_cons_of_mem _ h1)

/-- A code has a second segment exactly when it contains the separator. -/
theorem Split_second_iff (code : String) :
    (∃ stock, (Split code '.')[1]? = some stock) ↔ '.' ∈ code.data := by
  constructor
  · rintro ⟨stock, h⟩
    by_contra hno
    simp [Split, splitChars_no_sep '.' code.data hno] at h
  · exact Split_second code

/-- The second segment is what stands between the first separator and the second, or
the end of the code. -/
theorem Split_second_eq (code : String) (a b : List Char) (hcode : code.data = a ++ '.' :: b)
    (ha : '.' ∉ a) :
    (∀ b1 c, b = b1 ++ '.' :: c → '.' ∉ b1 → (Split code '.')[1]? = some (String.mk b1)) ∧
    ('.' ∉ b → (Split code '.')[1]? = some (String.mk b)) := by
  constructor
  · intro b1 c hb hb1
    subst hb
    have h1 : splitChars '.' code.data = a :: b1 :: splitChars '.' c := by
      rw [hcode, splitChars_prefix _ _ _ ha, splitChars_prefix _ _ _ hb1]
    simp [Split, h1]
  · intro hb
    have h1 : splitChars '.' code.data = [a, b] := by
      rw [hcode, splitChars_prefix _ _ _ ha, splitChars_no_sep _ _ hb]
    simp [Split, h1]

/-- A segment of a split code does not contain the separator. -/
theorem Split_no_sep (code stock : String) (n : Nat) (h : (Split code '.')[n]? = some stock) :
    '.' ∉ stock.data := by
  simp only [Split, List.getElem?_map, Option.map_eq_some'] at h
  obtain ⟨seg, hseg, hstock⟩ := h
  rw [← hstock]
  obtain ⟨hn, hget⟩ := List.getElem?_eq_some_iff.1 hseg
  exact splitChars_segment_no_sep '.' code.data seg (hget ▸ List.getElem_mem hn)

/-! ## When the row processing returns -/

/-- A data row is processed without a panic exactly when it has 2 to 18 fields. -/
theorem rowStep_ok_iff {ε τ φ File : Type} (lib : Lib ε τ φ File) (i : Nat)
    (row : List String) (v : Vars ε τ φ) :
    (∃ v1, rowStep lib i row v = .ok v1) ↔ 2 ≤ row.length ∧ row.length ≤ 18 := by
  match row with
  | [] => simp [rowStep]
  | [_] => simp [rowStep]
  | d :: c :: fields =>
    by_cases hf : fields.length ≤ 16
    · constructor
      · intro _
        simp only [List.length_cons]
        omega
      · intro _
        exact ⟨_, rowStep_ok lib i d c fields v hf⟩
    · constructor
      · rintro ⟨v1, h⟩
        have hp := parseFields_panic lib fields 0 v.ar v.errs (Nat.zero_le _) (by omega)
        simp [rowStep, hp] at h
      · intro h
        simp only [List.length_cons] at h
        omega

/-- The row loop ends without a panic exactly when every row has 2 to 18 fields. -/
theorem rowLoop_ok_iff {ε τ φ File : Type} (lib : Lib ε τ φ File)
    (rows : List (List String)) :
    ∀ (i0 : Nat) (v : Vars ε τ φ),
      (∃ out v1, rowLoop lib i0 rows v = (out, .ok v1)) ↔
        ∀ r ∈ rows, 2 ≤ r.length ∧ r.length ≤ 18 := by
  induction rows with
  | nil =>
    intro i0 v
    simp [rowLoop]
  | cons row rest ih =>
    intro i0 v
    simp only [rowLoop, List.mem_cons, forall_eq_or_imp]
    cases hs : rowStep lib i0 row v with
    | error p =>
      have hno : ¬ (2 ≤ row.length ∧ row.length ≤ 18) := fun hb => by
        obtain ⟨v1, h1⟩ := (rowStep_ok_iff lib i0 row v).2 hb
        rw [hs] at h1
        cases h1
      simp [hno]
    | ok v2 =>
      have hyes : 2 ≤ row.length ∧ row.length ≤ 18 := (rowStep_ok_iff lib i0 row v).1 ⟨v2, hs⟩
      simp only [hyes, and_self, true_and]
      exact ih (i0 + 1) v2

/-- The row processing ends in a return or in a panic, never in `log.Fatal`. -/
theorem readRecords_returned_or_panicked {ε τ φ File : Type} (lib : Lib ε τ φ File)
    (all : List (List String)) :
    (∃ tbl, (readRecords lib all).outcome = .returned tbl) ∨
      (∃ p, (readRecords lib all).outcome = .panicked p) := by
  unfold readRecords
  split
  · exact Or.inr ⟨_, rfl⟩
  · split
    · exact Or.inr ⟨_, rfl⟩
    · split
      · exact Or.inr ⟨_, rfl⟩
      · exact Or.inl ⟨_, rfl⟩

/-- What a returned table says about the records: there is a last data row, every data
row has 2 to 18 fields, and the stock code is the second segment of the last code. -/
theorem readRecords_returned {ε τ φ File : Type} (lib : Lib ε τ φ File)
    (all : List (List String)) (tbl : Data τ φ)
    (hret : (readRecords lib all).outcome = .returned tbl) :
    ∃ hdr rows last, all = hdr :: rows ∧ rows.getLast? = some last ∧
      (∀ r ∈ rows, 2 ≤ r.length ∧ r.length ≤ 18) ∧
      (Split (last.getD 1 "") '.')[1]? = some tbl.StockCode := by
  match all, hret with
  | [], hret => simp [readRecords] at hret
  | hdr :: rows, hret =>
    simp only [readRecords] at hret
    cases hloop : rowLoop lib 0 rows (initVars lib) with
    | mk out r =>
      rw [hloop] at hret
      cases r with
      | error p => simp at hret
      | ok v =>
        have hcode : v.code = lastCode "" rows := rowLoop_code lib rows 0 _ v out hloop
        have hbounds := (rowLoop_ok_iff lib rows 0 (initVars lib)).1 ⟨out, v, hloop⟩
        simp only [hcode] at hret
        cases hs : (Split (lastCode "" rows) '.')[1]? with
        | none => rw [hs] at hret; simp at hret
        | some stock =>
          rw [hs] at hret
          simp only [Outcome.returned.injEq] at hret
          cases hl : rows.getLast? with
          | none =>
            have hnil : rows = [] := List.getLast?_eq_none_iff.1 hl
            rw [hnil] at hs
            simp [lastCode, Split, splitChars] at hs
          | some last =>
            refine ⟨hdr, rows, last, rfl, hl, hbounds, ?_⟩
            rw [← lastCode_of_getLast "" rows last hl, hs, ← hret]

/-- The converse: such records make the row processing return a table. -/
theorem readRecords_returns {ε τ φ File : Type} (lib : Lib ε τ φ File)
    (hdr : List String) (rows : List (List String)) (last : List String)
    (hlast : rows.getLast? = some last)
    (hbounds : ∀ r ∈ rows, 2 ≤ r.length ∧ r.length ≤ 18)
    (hdot : '.' ∈ (last.getD 1 "").data) :
    ∃ tbl, (readRecords lib (hdr :: rows)).outcome = .returned tbl := by
  obtain ⟨out, v, hloop⟩ := (rowLoop_ok_iff lib rows 0 (initVars lib)).2 hbounds
  obtain ⟨stock, hstock⟩ := Split_second _ hdot
  have hcode : v.code = last.getD 1 "" := by
    rw [rowLoop_code lib rows 0 _ v out hloop]
    exact lastCode_of_getLast _ rows last hlast
  exact ⟨{ v.tbl with StockCode := stock }, by simp only [readRecords, hloop, hcode, hstock]⟩

/-! ## Rows of one length -/

theorem expectedDiags_eq_rowDiags {ε τ φ File : Type} (lib : Lib ε τ φ File)
    (rows : List (List String)) :
    expectedDiags lib rows = rows.enum.flatMap fun ir => rowDiags lib ir.1 ir.2 := rfl

/-- From the zero-valued buffers, what the report loop prints for a row of any length
is `rowDiags`: a column without a field holds no error. -/
theorem reportErrs_init {ε τ φ File : Type} (lib : Lib ε τ φ File) (i : Nat)
    (row : List String) :
    reportErrs i (slotValue lib (fun _ => lib.zeroFloat) row)
      (slotErr lib (fun _ => (none : Option ε)) row) = rowDiags lib i row := by
  unfold rowDiags
  rw [filter_flatMap_ite, ← List.map_coe_finRange 16, List.flatMap_map]
  simp only [reportErrs, List.flatMap_def]
  congr 1
  apply List.map_congr_left
  intro j _
  simp only [reportErr, slotValue, slotErr, numErr, numVal]
  cases row[j.val + 2]? with
  | none => simp
  | some s =>
    simp only []
    cases he : (lib.ParseFloat s).2 with
    | none => simp
    | some e =>
      by_cases h8 : j.val = 8
      · simp [h8]
      · simp [h8]

theorem slotValue_init {ε τ φ File : Type} (lib : Lib ε τ φ File) (row : List String)
    (j : Fin 16) : slotValue lib (fun _ => lib.zeroFloat) row j = numVal lib row j.val := rfl

/-- The row loop of `ReadData` over rows that all have `k` fields, `2 ≤ k ≤ 18`, from the
initial variables. -/
theorem rowLoop_same_length {ε τ φ File : Type} (lib : Lib ε τ φ File) (k : Nat)
    (hk2 : 2 ≤ k) (hk18 : k ≤ 18) (rows : List (List String))
    (hlen : ∀ r ∈ rows, r.length = k) :
    ∃ v1, rowLoop lib 0 rows (initVars lib) = (v1.stdout, .ok v1) ∧
      v1.stdout = rows.enum.flatMap (fun ir => rowDiags lib ir.1 ir.2) ∧
      v1.tbl.Dates = rows.map (fun r => (lib.Parse (r.getD 0 "")).1) ∧
      ∀ j, v1.tbl.column j = rows.map (fun r => numVal lib r j.val) := by
  obtain ⟨v1, hrun, _, hdates, hcols, _, hout⟩ :=
    rowLoop_uniform lib (k - 2) (by omega) rows
      (fun r hr => by rw [hlen r hr]; omega) 0 (initVars lib)
  refine ⟨v1, hrun, ?_, ?_, ?_⟩
  · rw [hout]
    simp only [initVars, List.nil_append, List.enum_eq_enumFrom, List.flatMap_def]
    congr 1
    apply List.map_congr_left
    intro ir _
    exact reportErrs_init lib ir.1 ir.2
  · rw [hdates]; simp [initVars]
  · intro j
    rw [hcols j]
    have h0 : (initVars lib).tbl.column j = [] := by fin_cases j <;> rfl
    rw [h0, List.nil_append]
    rfl

/-- The run of `ReadData` on data rows that all have `k` fields, `2 ≤ k ≤ 18`: what is
printed, and every returned table. -/
theorem readRecords_same_length {ε τ φ File : Type} (lib : Lib ε τ φ File) (k : Nat)
    (hk2 : 2 ≤ k) (hk18 : k ≤ 18) (hdr : List String) (rows : List (List String))
    (hlen : ∀ r ∈ rows, r.length = k) :
    (readRecords lib (hdr :: rows)).stdout
        = rows.enum.flatMap (fun ir => rowDiags lib ir.1 ir.2) ∧
      ∀ tbl, (readRecords lib (hdr :: rows)).outcome = .returned tbl →
        tbl.Dates = rows.map (fun r => (lib.Parse (r.getD 0 "")).1) ∧
        ∀ j, tbl.column j = rows.map (fun r => numVal lib r j.val) := by
  obtain ⟨v1, hrun, hout, hdates, hcols⟩ := rowLoop_same_length lib k hk2 hk18 rows hlen
  constructor
  · simp only [readRecords, hrun]
    split <;> exact hout
  · intro tbl hret
    simp only [readRecords, hrun] at hret
    split at hret
    · simp at hret
    · simp only [Outcome.returned.injEq] at hret
      rw [← hret]
      refine ⟨hdates, fun j => ?_⟩
      rw [← hcols j]
      fin_cases j <;> rfl

/-- The `err at` lines of the rows' diagnostics. -/
theorem mem_rowDiags {ε τ φ File : Type} (lib : Lib ε τ φ File)
    (rows : List (List String)) (i j : Nat) :
    Line.errAt i j ∈ rows.enum.flatMap (fun ir => rowDiags lib ir.1 ir.2) ↔
      ∃ row, rows[i]? = some row ∧ j < 16 ∧ j ≠ 8 ∧ (numErr lib row j).isSome := by
  rw [← expectedDiags_eq_rowDiags]
  exact mem_expectedDiags lib rows i j

theorem mem_of_getLast_some {α : Type} {l : List α} {a : α} (h : l.getLast? = some a) :
    a ∈ l := by
  obtain ⟨ys, rfl⟩ := List.getLast?_eq_some_iff.1 h
  simp

/-! ## The claims, continued -/

/-- C11: the deferred `f.Close()` is not executed on the fatal exit.  On a file that
opens and on which the CSV reader returns an error, `ReadData` ends in `log.Fatalln`,
which exits the process without running deferred calls; on a normal return and on a
panic of the row processing the deferred call does run. -/
theorem C11_close_skipped_on_fatal :
    ReadData (goLib brokenCsv) "data.csv" =
        { stdout := [], closed := false
          outcome := .fatal (.CsvError "wrong number of fields") } ∧
      (ReadData (goLib (oneFile [header, exampleRow])) "data.csv").closed = true ∧
      (ReadData (goLib (oneFile [header, noDotRow])) "data.csv").closed = true := by
  decide

/-- C12: given the records that the CSV reader returned, `ReadData` returns a table
exactly when there is a header record followed by at least one data row, every data row
has at least 2 and at most 18 fields, and field 1 of the last data row contains `.`; in
every other case it ends in a run-time panic. -/
theorem C12_returns_iff {ε τ φ File : Type} (lib : Lib ε τ φ File) (path : String) (f : File)
    (all : List (List String))
    (hopen : lib.Open path = .ok f) (hread : lib.ReadAll f = .ok all) :
    ((∃ tbl, (ReadData lib path).outcome = .returned tbl) ↔
      ∃ hdr rows last code, all = hdr :: rows ∧ rows.getLast? = some last ∧
        (∀ r ∈ rows, 2 ≤ r.length ∧ r.length ≤ 18) ∧
        last[1]? = some code ∧ '.' ∈ code.data) ∧
    ((∀ tbl, (ReadData lib path).outcome ≠ .returned tbl) →
      ∃ p, (ReadData lib path).outcome = .panicked p) := by
  rw [ReadData_records lib path f all hopen hread]
  constructor
  · constructor
    · rintro ⟨tbl, hret⟩
      obtain ⟨hdr, rows, last, hall, hlast, hbounds, hsplit⟩ :=
        readRecords_returned lib all tbl hret
      have hmem : last ∈ rows := mem_of_getLast_some hlast
      have hlen : 2 ≤ last.length := (hbounds last hmem).1
      refine ⟨hdr, rows, last, last.getD 1 "", hall, hlast, hbounds, ?_, ?_⟩
      · rw [List.getD_eq_getElem?_getD, List.getElem?_eq_getElem (by omega)]
        rfl
      · exact (Split_second_iff _).1 ⟨_, hsplit⟩
    · rintro ⟨hdr, rows, last, code, hall, hlast, hbounds, hcode, hdot⟩
      rw [hall]
      have hc : last.getD 1 "" = code := by
        rw [List.getD_eq_getElem?_getD, hcode]
        rfl
      exact readRecords_returns lib hdr rows last hlast hbounds (by rw [hc]; exact hdot)
  · intro hno
    rcases readRecords_returned_or_panicked lib all with ⟨tbl, h⟩ | h
    · exact absurd h (hno tbl)
    · exact h

/-- C13: whenever `ReadData` returns, `StockCode` does not contain `.`.  It is the text
between the first and the second separator of the last row's code when the code has two
or more separators, the text after the separator when it has one, and the empty string
when nothing follows the first separator. -/
theorem C13_stock_code_has_no_separator {ε τ φ File : Type} (lib : Lib ε τ φ File)
    (path : String) (f : File) (hdr : List String) (earlier : List (List String))
    (last : List String) (tbl : Data τ φ)
    (hopen : lib.Open path = .ok f)
    (hread : lib.ReadAll f = .ok (hdr :: (earlier ++ [last])))
    (hret : (ReadData lib path).outcome = .returned tbl) :
    ∃ code, last[1]? = some code ∧ '.' ∉ tbl.StockCode.data ∧
      (∀ a b c : List Char, code.data = a ++ '.' :: (b ++ '.' :: c) → '.' ∉ a → '.' ∉ b →
        tbl.StockCode = String.mk b) ∧
      (∀ a b : List Char, code.data = a ++ '.' :: b → '.' ∉ a → '.' ∉ b →
        tbl.StockCode = String.mk b) ∧
      (∀ a : List Char, code.data = a ++ ['.'] → '.' ∉ a → tbl.StockCode = "") := by
  rw [ReadData_records lib path f _ hopen hread] at hret
  obtain ⟨hdr1, rows, last1, hall, hlast, hbounds, hsplit⟩ :=
    readRecords_returned lib _ tbl hret
  have hrows : rows = earlier ++ [last] := (List.cons.inj hall).2.symm
  have hl : last1 = last := by
    rw [hrows, List.getLast?_append, List.getLast?_singleton] at hlast
    simpa using hlast.symm
  subst hl
  have hmem : last1 ∈ rows := mem_of_getLast_some hlast
  have hlen : 2 ≤ last1.length := (hbounds last1 hmem).1
  refine ⟨last1.getD 1 "", ?_, Split_no_sep _ _ 1 hsplit, ?_, ?_, ?_⟩
  · rw [List.getD_eq_getElem?_getD, List.getElem?_eq_getElem (by omega)]
    rfl
  · intro a b c hcode ha hb
    have h := (Split_second_eq _ a (b ++ '.' :: c) hcode ha).1 b c rfl hb
    rw [hsplit] at h
    exact Option.some.inj h
  · intro a b hcode ha hb
    have h := (Split_second_eq _ a b hcode ha).2 hb
    rw [hsplit] at h
    exact Option.some.inj h
  · intro a hcode ha
    have h := (Split_second_eq _ a [] hcode ha).2 (by simp)
    rw [hsplit] at h
    exact Option.some.inj h

/-- C14: row independence.  For two inputs in which every data row has the same field
count `k`, `2 ≤ k ≤ 18`: what each run prints is, row by row, `rowDiags` of the row and
its index alone; and if the inputs agree on data row `i`, then the same `err at (i, j)`
lines are printed for it, no line is printed for a column the rows do not have, and in
any two returned tables element `i` of every sequence is the same, namely the parse of
the row's own field, and zero in the sequences of the columns the rows do not have. -/
theorem C14_row_independence {ε τ φ File : Type} (lib : Lib ε τ φ File)
    (path1 path2 : String) (f1 f2 : File) (hdr1 hdr2 : List String)
    (rows1 rows2 : List (List String)) (k : Nat) (hk2 : 2 ≤ k) (hk18 : k ≤ 18)
    (hopen1 : lib.Open path1 = .ok f1) (hread1 : lib.ReadAll f1 = .ok (hdr1 :: rows1))
    (hopen2 : lib.Open path2 = .ok f2) (hread2 : lib.ReadAll f2 = .ok (hdr2 :: rows2))
    (hlen1 : ∀ r ∈ rows1, r.length = k) (hlen2 : ∀ r ∈ rows2, r.length = k) :
    (ReadData lib path1).stdout = rows1.enum.flatMap (fun ir => rowDiags lib ir.1 ir.2) ∧
    (ReadData lib path2).stdout = rows2.enum.flatMap (fun ir => rowDiags lib ir.1 ir.2) ∧
    ∀ (i : Nat) (row : List String), rows1[i]? = some row → rows2[i]? = some row →
      (∀ j, Line.errAt i j ∈ (ReadData lib path1).stdout ↔
        Line.errAt i j ∈ (ReadData lib path2).stdout) ∧
      (∀ j, k ≤ j + 2 → Line.errAt i j ∉ (ReadData lib path1).stdout) ∧
      ∀ tbl1 tbl2, (ReadData lib path1).outcome = .returned tbl1 →
        (ReadData lib path2).outcome = .returned tbl2 →
        tbl1.Dates[i]? = some (lib.Parse (row.getD 0 "")).1 ∧
        tbl2.Dates[i]? = some (lib.Parse (row.getD 0 "")).1 ∧
        ∀ j : Fin 16,
          (tbl1.column j)[i]? = some (numVal lib row j.val) ∧
          (tbl2.column j)[i]? = some (numVal lib row j.val) ∧
          (k ≤ j.val + 2 → (tbl1.column j)[i]? = some lib.zeroFloat) := by
  rw [ReadData_records lib path1 f1 _ hopen1 hread1, ReadData_records lib path2 f2 _ hopen2 hread2]
  obtain ⟨hout1, htbl1⟩ := readRecords_same_length lib k hk2 hk18 hdr1 rows1 hlen1
  obtain ⟨hout2, htbl2⟩ := readRecords_same_length lib k hk2 hk18 hdr2 rows2 hlen2
  refine ⟨hout1, hout2, ?_⟩
  intro i row hrow1 hrow2
  have hk : row.length = k := by
    obtain ⟨hi, hget⟩ := List.getElem?_eq_some_iff.1 hrow1
    exact hget ▸ hlen1 _ (List.getElem_mem hi)
  have hmissing : ∀ j, k ≤ j + 2 → row[j + 2]? = none := fun j hj =>
    List.getElem?_eq_none_iff.2 (by omega)
  refine ⟨?_, ?_, ?_⟩
  · intro j
    rw [hout1, hout2, mem_rowDiags, mem_rowDiags, hrow1, hrow2]
  · intro j hj
    rw [hout1, mem_rowDiags, hrow1]
    rintro ⟨r, hr, _, _, herr⟩
    have hrr : r = row := (Option.some.inj hr).symm
    subst hrr
    simp [numErr, hmissing j hj] at herr
  · intro tbl1 tbl2 hret1 hret2
    obtain ⟨hd1, hc1⟩ := htbl1 tbl1 hret1
    obtain ⟨hd2, hc2⟩ := htbl2 tbl2 hret2
    refine ⟨?_, ?_, ?_⟩
    · rw [hd1, List.getElem?_map, hrow1]; rfl
    · rw [hd2, List.getElem?_map, hrow2]; rfl
    · intro j
      have h1 : (tbl1.column j)[i]? = some (numVal lib row j.val) := by
        rw [hc1 j, List.getElem?_map, hrow1]; rfl
      have h2 : (tbl2.column j)[i]? = some (numVal lib row j.val) := by
        rw [hc2 j, List.getElem?_map, hrow2]; rfl
      refine ⟨h1, h2, fun hj => ?_⟩
      rw [h1]
      simp [numVal, hmissing j.val hj]

/-! ## The later claims at concrete inputs -/

/-- C12 on the example of the specification, which returns a table, and on five inputs
that do not: no record at all, the header alone, a data row of one field, a data row of
19 fields, and a last code without separator. -/
theorem C12_returns_iff_witness :
    (∃ tbl, (ReadData (goLib (oneFile [header, exampleRow])) "data.csv").outcome
        = .returned tbl) ∧
      (ReadData (goLib (oneFile [])) "data.csv").outcome = .panicked (.sliceBounds 1 0) ∧
      (ReadData (goLib (oneFile [header])) "data.csv").outcome
        = .panicked (.indexOutOfRange 1 1) ∧
      (ReadData (goLib (oneFile [header, ["2020-01-02"]])) "data.csv").outcome
        = .panicked (.indexOutOfRange 1 1) ∧
      (ReadData (goLib (oneFile [header, longRow])) "data.csv").outcome
        = .panicked (.indexOutOfRange 16 16) ∧
      (ReadData (goLib (oneFile [header, noDotRow])) "data.csv").outcome
        = .panicked (.indexOutOfRange 1 1) :=
  ⟨(C12_returns_iff (goLib (oneFile [header, exampleRow])) "data.csv"
      (.ok [header, exampleRow]) [header, exampleRow] rfl rfl).1.2
      ⟨header, [exampleRow], exampleRow, "sh.600000", rfl, rfl, by decide, rfl, by decide⟩,
   by decide, by decide, by decide, by decide, by decide⟩

/-- C13 on the code `sh.600000.x`, which gives the stock code `600000`, and on the code
`sh.`, which gives the empty stock code. -/
theorem C13_stock_code_has_no_separator_witness :
    (∃ tbl, (ReadData (goLib (oneFile [header, twoDotRow])) "data.csv").outcome
        = .returned tbl ∧ tbl.StockCode = "600000" ∧ '.' ∉ tbl.StockCode.data) ∧
    (∃ tbl, (ReadData (goLib (oneFile [header, endDotRow])) "data.csv").outcome
        = .returned tbl ∧ tbl.StockCode = "") := by
  constructor
  · obtain ⟨tbl, hret⟩ : ∃ tbl, (ReadData (goLib (oneFile [header, twoDotRow]))
        "data.csv").outcome = .returned tbl := ⟨_, rfl⟩
    obtain ⟨code, hcode, hno, h2, _, _⟩ := C13_stock_code_has_no_separator
      (goLib (oneFile [header, twoDotRow])) "data.csv" (.ok [header, twoDotRow]) header []
      twoDotRow tbl rfl rfl hret
    have hc : code = "sh.600000.x" := (Option.some.inj hcode).symm
    subst hc
    exact ⟨tbl, hret, h2 "sh".data "600000".data "x".data rfl (by decide) (by decide), hno⟩
  · obtain ⟨tbl, hret⟩ : ∃ tbl, (ReadData (goLib (oneFile [header, endDotRow]))
        "data.csv").outcome = .returned tbl := ⟨_, rfl⟩
    obtain ⟨code, hcode, _, _, _, h0⟩ := C13_stock_code_has_no_separator
      (goLib (oneFile [header, endDotRow])) "data.csv" (.ok [header, endDotRow]) header []
      endDotRow tbl rfl rfl hret
    have hc : code = "sh." := (Option.some.inj hcode).symm
    subst hc
    exact ⟨tbl, hret, h0 "sh".data rfl (by decide)⟩

/-- C14 on two files of four columns that agree on their first data row, whose open
price is no number, and differ in the second: the first row has the same diagnostic and
the same elements in both tables, and the sequences of the absent columns hold zero. -/
theorem C14_row_independence_witness :
    (ReadData (goLib (twoFiles [shortHeader, shortRowA, shortRowB]
        [shortHeader, shortRowA, shortRowC])) "a.csv").stdout
      = [.errAt 0 0, .parsedValue float64.zero] ∧
    (ReadData (goLib (twoFiles [shortHeader, shortRowA, shortRowB]
        [shortHeader, shortRowA, shortRowC])) "b.csv").stdout
      = [.errAt 0 0, .parsedValue float64.zero, .errAt 1 0, .parsedValue float64.zero,
         .errAt 1 1, .parsedValue float64.zero] ∧
    ∃ tbl1 tbl2,
      (ReadData (goLib (twoFiles [shortHeader, shortRowA, shortRowB]
        [shortHeader, shortRowA, shortRowC])) "a.csv").outcome = .returned tbl1 ∧
      (ReadData (goLib (twoFiles [shortHeader, shortRowA, shortRowB]
        [shortHeader, shortRowA, shortRowC])) "b.csv").outcome = .returned tbl2 ∧
      tbl1.Dates[0]? = tbl2.Dates[0]? ∧ tbl1.Opens[0]? = tbl2.Opens[0]? ∧
      tbl1.Highs[0]? = tbl2.Highs[0]? ∧ tbl1.Highs[0]? = some (ParseFloat "10.5").1 ∧
      tbl1.Lows[0]? = some float64.zero ∧ tbl1.IsSTs[0]? = some float64.zero := by
  obtain ⟨hout1, hout2, h⟩ := C14_row_independence
    (goLib (twoFiles [shortHeader, shortRowA, shortRowB] [shortHeader, shortRowA, shortRowC]))
    "a.csv" "b.csv" (.ok [shortHeader, shortRowA, shortRowB])
    (.ok [shortHeader, shortRowA, shortRowC]) shortHeader shortHeader
    [shortRowA, shortRowB] [shortRowA, shortRowC] 4 (by decide) (by decide) rfl rfl rfl rfl
    (by decide) (by decide)
  obtain ⟨_, _, htbl⟩ := h 0 shortRowA rfl rfl
  refine ⟨hout1.trans (by decide), hout2.trans (by decide), _, _, rfl, rfl, ?_⟩
  obtain ⟨hd1, hd2, hcol⟩ := htbl _ _ rfl rfl
  exact ⟨hd1.trans hd2.symm, (hcol 0).1.trans (hcol 0).2.1.symm,
    (hcol 1).1.trans (hcol 1).2.1.symm, (hcol 1).1, (hcol 2).2.2 (by decide),
    (hcol 15).2.2 (by decide)⟩

end Lev0
